import Mathlib

/-
  Verification of the Kademlia DHT core (routing table, iterative lookup,
  RPC handlers, maintenance) against its natural-language specification.

  The JavaScript sources are shallowly embedded: buffers of bytes become
  `List Nat` (each element < 256 where it matters), JS `Map`s become
  insertion-ordered association lists, promises/callbacks become explicit
  outcome values, and all randomness and transport behaviour is supplied
  through explicit oracle functions.
-/

namespace Kademlia

/-- Modelled from the spec: the repository's `lib/constants` module is not in
the sources; the spec fixes B = 160 (identifier bit width). -/
def B : Nat := 160

/-- Modelled from the spec: `lib/constants` is missing; K = 20 is the bucket
capacity and lookup result size. -/
def K : Nat := 20

/-- Modelled from the spec: `lib/constants` is missing; ALPHA = 3 is the
lookup parallelism. -/
def ALPHA : Nat := 3

/-- A node identifier / key: the 20-byte buffer underlying a 160-bit
fingerprint.  The lowercase 40-char hex string form used as JS `Map` keys is
in bijection with this byte list, so string equality is byte-list equality. -/
abbrev NodeId := List Nat

/-- Well-formed 160-bit key: 20 bytes, each a byte value. -/
def wfKey (k : NodeId) : Prop := k.length = 20 ∧ ∀ b ∈ k, b < 256

instance (k : NodeId) : Decidable (wfKey k) := by
  unfold wfKey; infer_instance

/-- `keys.getDistance`: byte-wise XOR of two 20-byte keys
(`Buffer.alloc(B/8).map((b, index) => id1[index] ^ id2[index])`). -/
def getDistance (id1 id2 : NodeId) : NodeId :=
  List.zipWith Nat.xor id1 id2

/-- `keys.compareKeyBuffers`: lexicographic comparison on the first differing
byte; both arguments are asserted to be 20 bytes in the source, so the
uneven-length case is unreachable. -/
def compareKeyBuffers : NodeId → NodeId → Ordering
  | [], _ => Ordering.eq
  | _ :: _, [] => Ordering.eq
  | b1 :: r1, b2 :: r2 =>
    if b1 = b2 then compareKeyBuffers r1 r2
    else if b1 < b2 then Ordering.lt
    else Ordering.gt

/-- The inner bit scan of `keys.getBucketIndex`: for a distance byte, the
code tests bits `0x80 >> i` for `i = 0..7`, decrementing once per tested bit
and returning at the first set bit.  `some n` means the loop returned after
`n` decrements; `none` means no bit among the low 8 was set (for a byte value
this only happens for 0, in which case the source takes the `byteValue === 0`
branch instead). -/
def byteScanCount (v : Nat) : Option Nat :=
  if v &&& 128 ≠ 0 then some 1
  else if v &&& 64 ≠ 0 then some 2
  else if v &&& 32 ≠ 0 then some 3
  else if v &&& 16 ≠ 0 then some 4
  else if v &&& 8 ≠ 0 then some 5
  else if v &&& 4 ≠ 0 then some 6
  else if v &&& 2 ≠ 0 then some 7
  else if v &&& 1 ≠ 0 then some 8
  else none

/-- The byte loop of `keys.getBucketIndex`, starting from `bucketIndex = B`:
a zero byte subtracts 8; a nonzero byte runs the bit scan and returns (or
falls through subtracting 8 if no low bit is set, which cannot happen for
byte values). -/
def bucketIndexLoop : List Nat → Nat → Nat
  | [], acc => acc
  | v :: rest, acc =>
    if v = 0 then bucketIndexLoop rest (acc - 8)
    else match byteScanCount v with
      | some n => acc - n
      | none => bucketIndexLoop rest (acc - 8)

/-- `keys.getBucketIndex(referenceKey, foreignKey)`: position of the
most-significant set bit of the XOR distance, via the source's byte/bit
scan. -/
def getBucketIndex (referenceKey foreignKey : NodeId) : Nat :=
  bucketIndexLoop (getDistance referenceKey foreignKey) B

/-- `keys.getPowerOfTwoBufferForIndex(referenceKey, exp)`: copies the
reference key and overwrites the whole byte containing bit `exp`
(`buffer[constants.K - byteValue - 1] = 1 << (exp % 8)`); note the source
uses `constants.K` (= 20 = B/8) as the byte count. -/
def getPowerOfTwoBufferForIndex (referenceKey : NodeId) (exp : Nat) : NodeId :=
  referenceKey.set (K - exp / 8 - 1) (1 <<< (exp % 8))

/-- `keys.getRandomBufferInBucketRange(referenceKey, index)`.  Randomness is
supplied by oracles: `randByte i` models `parseInt(Math.random() * 256)`
written into `base[i]` (Buffer assignment truncates modulo 256), and
`randBit j` models `Math.random() >= 0.5` for the bit OR'd at shift
`j - byte * 8`.  The first loop runs `i` from 19 down to `20 - byte` and the
second runs `j` from `index - 1` down to `byte * 8`. -/
def getRandomBufferInBucketRange (referenceKey : NodeId) (index : Nat)
    (randByte : Nat → Nat) (randBit : Nat → Bool) : NodeId :=
  let base := getPowerOfTwoBufferForIndex referenceKey index
  let byte := index / 8
  let base := (List.range byte).foldl
    (fun b k => b.set (K - 1 - k) (randByte (K - 1 - k) % 256)) base
  (List.range (index - byte * 8)).foldl
    (fun b k =>
      let j := index - 1 - k
      let shiftAmount := j - byte * 8
      b.set (K - byte - 1)
        ((b.getD (K - byte - 1) 0) ||| (if randBit j then 1 <<< shiftAmount else 0)))
    base

/-- `contacts.Contact`: an opaque transport address bound to a fingerprint.
The address record is opaque to the core; we model it as a `Nat`. -/
structure Contact where
  address : Nat
  fingerprint : NodeId
deriving DecidableEq, Repr

/-! ## Bucket (`lib/bucket.js`)

A `Bucket` extends a JS `Map`: an insertion-ordered association list with
no duplicate keys; the head is the first entry, the tail the last. -/

abbrev Bucket := List (NodeId × Contact)

/-- The keys of a bucket, in insertion order. -/
def bucketKeys (b : Bucket) : List NodeId := b.map Prod.fst

/-- JS `Map.prototype.set` on an association list: replace in place if the
key is present, otherwise append at the end. -/
def mapSet (b : Bucket) (nodeId : NodeId) (contact : Contact) : Bucket :=
  if nodeId ∈ bucketKeys b then
    b.map (fun p => if p.1 = nodeId then (nodeId, contact) else p)
  else b ++ [(nodeId, contact)]

/-- JS `Map.prototype.delete`: removes the entry with the key (keys are
unique in a `Map`, so filtering removes exactly that entry). -/
def mapDelete (b : Bucket) (nodeId : NodeId) : Bucket :=
  b.filter (fun p => p.1 ≠ nodeId)

/-- `Bucket#indexOf(key)`: position of the key in iteration order, `-1` if
missing. -/
def bucketIndexOf (b : Bucket) (key : NodeId) : Int :=
  match b.findIdx? (fun p => p.1 = key) with
  | some i => (i : Int)
  | none => -1

/-- `Bucket#head`: the first entry, if any. -/
def bucketHead (b : Bucket) : Option (NodeId × Contact) := b.head?

/-- The bucket contents after `Bucket#set(nodeId, contact)`: if present,
delete and re-`set` (moves the entry to the tail); else if fewer than K
entries, rebuild with the new entry first (insert at head); else leave the
bucket unchanged. -/
def bucketSetBucket (b : Bucket) (nodeId : NodeId) (contact : Contact) :
    Bucket :=
  if nodeId ∈ bucketKeys b then
    mapSet (mapDelete b nodeId) nodeId contact
  else if b.length < K then
    (nodeId, contact) :: b
  else b

/-- `Bucket#set(nodeId, contact)`: mutate as in `bucketSetBucket` and return
`this.indexOf(nodeId)` on the result. -/
def bucketSet (b : Bucket) (nodeId : NodeId) (contact : Contact) :
    Bucket × Int :=
  (bucketSetBucket b nodeId contact,
   bucketIndexOf (bucketSetBucket b nodeId contact) nodeId)

/-- Distance-ascending comparison used by the sorts in `bucket.js` and
`contact.js` (`compareKeyBuffers` of the two distances).  JS
`Array.prototype.sort` is stable, and distances to a fixed key of distinct
fingerprints are distinct, so a stable insertion sort reproduces it. -/
def distLE (key : NodeId) (a b : NodeId) : Prop :=
  compareKeyBuffers (getDistance a key) (getDistance b key) ≠ Ordering.gt

instance (key a b : NodeId) : Decidable (distLE key a b) := by
  unfold distLE; infer_instance

/-- `Bucket#getClosestToKey(key, count, exclusive)`: pair every entry with
its distance to `key`, sort ascending, drop the entry equal to `key` when
`exclusive`, and keep the first `count`. -/
def bucketGetClosestToKey (b : Bucket) (key : NodeId)
    (count : Nat := K) (exclusive : Bool := false) : List (NodeId × Contact) :=
  let sorted := b.insertionSort (fun p q => distLE key p.1 q.1)
  ((sorted.filter (fun p => if exclusive then p.1 ≠ key else True)).map id).take
    count

/-! ## ContactList (`lib/contact.js`) -/

/-- JS `Set.prototype.add` on a membership list. -/
def setAdd (s : List NodeId) (id : NodeId) : List NodeId :=
  if id ∈ s then s else s ++ [id]

/-- The lookup shortlist: contacts sorted ascending by XOR distance to `key`,
plus the `contacted` and `active` fingerprint sets. -/
structure ContactList where
  key : NodeId
  contacts : List Contact
  contactedSet : List NodeId
  activeSet : List NodeId
deriving Repr

/-- One step of the `forEach` in `ContactList#add`: skip a contact whose
fingerprint is already tracked in `identities`, otherwise push it to `added`
and track its fingerprint. -/
def clAddStep (acc : List Contact × List NodeId) (c : Contact) :
    List Contact × List NodeId :=
  if c.fingerprint ∈ acc.2 then acc
  else (acc.1 ++ [c], acc.2 ++ [c.fingerprint])

/-- The `added` subset computed by `ContactList#add(contacts)`: `identities`
starts as the fingerprints already in the list. -/
def clAddAdded (cl : ContactList) (newContacts : List Contact) :
    List Contact :=
  (newContacts.foldl clAddStep ([], cl.contacts.map Contact.fingerprint)).1

/-- `ContactList#add(contacts)`: append the new subset, re-sort by distance,
and return the added subset. -/
def clAdd (cl : ContactList) (newContacts : List Contact) :
    ContactList × List Contact :=
  ({ cl with
      contacts := (cl.contacts ++ clAddAdded cl newContacts).insertionSort
        (fun a b => distLE cl.key a.fingerprint b.fingerprint) },
   clAddAdded cl newContacts)

/-- `new ContactList(key, contacts)`. -/
def clInit (key : NodeId) (contacts : List Contact) : ContactList :=
  (clAdd { key := key, contacts := [], contactedSet := [], activeSet := [] }
    contacts).1

/-- `ContactList#contacted(contact)`: record the fingerprint as probed. -/
def clContacted (cl : ContactList) (c : Contact) : ContactList :=
  { cl with contactedSet := setAdd cl.contactedSet c.fingerprint }

/-- `ContactList#responded(contact)`: record the fingerprint as active (the
source adds it only to the `_active` set). -/
def clResponded (cl : ContactList) (c : Contact) : ContactList :=
  { cl with activeSet := setAdd cl.activeSet c.fingerprint }

/-- `ContactList#active`: contacts, in distance order, whose fingerprint is
in the active set. -/
def clActive (cl : ContactList) : List Contact :=
  cl.contacts.filter (fun c => c.fingerprint ∈ cl.activeSet)

/-- `ContactList#uncontacted`: contacts not yet contacted, in distance
order. -/
def clUncontacted (cl : ContactList) : List Contact :=
  cl.contacts.filter (fun c => c.fingerprint ∉ cl.contactedSet)

/-- `ContactList#closest`: the first (minimum-distance) contact. -/
def clClosest (cl : ContactList) : Option Contact := cl.contacts.head?

/-! ## Router (`lib/router.js`) -/

inductive RouterEvent where
  | contact_added (fingerprint : NodeId)
  | contact_deleted (fingerprint : NodeId)
deriving DecidableEq, Repr

/-- The routing table: B buckets plus the local identity. -/
structure Router where
  identity : NodeId
  buckets : List Bucket
deriving Repr

/-- A fresh router: B empty buckets. -/
def routerInit (identity : NodeId) : Router :=
  { identity := identity, buckets := List.replicate B [] }

/-- `Router#size`: total number of contacts across buckets. -/
def routerSize (r : Router) : Nat :=
  (r.buckets.map List.length).sum

/-- `Router#indexOf(nodeId)`. -/
def routerIndexOf (r : Router) (nodeId : NodeId) : Nat :=
  getBucketIndex r.identity nodeId

/-- `Router#addContactByNodeId(nodeId, contact)`: forwards to the bucket at
`indexOf(nodeId)`, emits `contact_added` (unconditionally in the source),
and returns `[bucketIndex, bucket, contactIndex, contact]`. -/
def routerAddContactByNodeId (r : Router) (nodeId : NodeId) (c : Contact) :
    Router × Nat × Bucket × Int × List RouterEvent :=
  let bucketIndex := routerIndexOf r nodeId
  let bucket := r.buckets.getD bucketIndex []
  let (bucket', contactIndex) := bucketSet bucket nodeId c
  ({ r with buckets := r.buckets.set bucketIndex bucket' },
   bucketIndex, bucket', contactIndex, [RouterEvent.contact_added nodeId])

/-- `Router#removeContactByNodeId(nodeId)`: emits `contact_deleted` and
deletes from the bucket. -/
def routerRemoveContactByNodeId (r : Router) (nodeId : NodeId) :
    Router × List RouterEvent :=
  let bucketIndex := routerIndexOf r nodeId
  let bucket := r.buckets.getD bucketIndex []
  ({ r with buckets := r.buckets.set bucketIndex (mapDelete bucket nodeId) },
   [RouterEvent.contact_deleted nodeId])

/-- `Router#getClosestBucket()`: the `[index, bucket]` pair of the occupied
bucket with the lowest index, or the pair at index B − 1 if all are empty. -/
def routerGetClosestBucket (r : Router) : Nat × Bucket :=
  match r.buckets.findIdx? (fun b => b.length ≠ 0) with
  | some i => (i, r.buckets.getD i [])
  | none => (B - 1, r.buckets.getD (B - 1) [])

/-- The `_addNearestFromBucket` helper of `Router#getClosestContactsToKey`:
take the sorted closest entries of the bucket, `splice` off the first
`n - contactResults.size`, and `set` each while fewer than `n` results are
gathered. -/
def addNearestFromBucket (key : NodeId) (n : Nat) (exclusive : Bool)
    (acc : List (NodeId × Contact)) (bucket : Bucket) :
    List (NodeId × Contact) :=
  let entries := bucketGetClosestToKey bucket key n exclusive
  let taken := entries.take (n - acc.length)
  taken.foldl (fun a p => if a.length < n then mapSet a p.1 p.2 else a) acc

/-- `Router#getClosestContactsToKey(key, n, exclusive)`: scans the bucket at
`indexOf(key)`, then walks `descIndex` from there down to 0, then `ascIndex`
from there up to B − 1.  The source's `while` loops exit once `n` results
are gathered; scanning further buckets is then a no-op
(`splice(0, n - size)` takes nothing), so folding over the full index walks
is the same function. -/
def routerGetClosestContactsToKey (r : Router) (key : NodeId)
    (n : Nat := K) (exclusive : Bool := false) : List (NodeId × Contact) :=
  let bucketIndex := routerIndexOf r key
  let acc := addNearestFromBucket key n exclusive []
    (r.buckets.getD bucketIndex [])
  let acc := ((List.range (bucketIndex + 1)).reverse).foldl
    (fun a i => addNearestFromBucket key n exclusive a (r.buckets.getD i []))
    acc
  (List.range' bucketIndex (B - bucketIndex)).foldl
    (fun a i => addNearestFromBucket key n exclusive a (r.buckets.getD i []))
    acc

/-! ## Hex keys on the wire (`keys.js` validation)

RPC handlers receive the key as a string.  `Buffer.from(str, 'hex')` decodes
character pairs and stops at the first character that is not a hex digit
(a trailing lone character is dropped). -/

/-- Value of a hex digit, if any (Node accepts both cases). -/
def hexVal (c : Char) : Option Nat :=
  if '0' ≤ c ∧ c ≤ '9' then some (c.toNat - '0'.toNat)
  else if 'a' ≤ c ∧ c ≤ 'f' then some (c.toNat - 'a'.toNat + 10)
  else if 'A' ≤ c ∧ c ≤ 'F' then some (c.toNat - 'A'.toNat + 10)
  else none

/-- `Buffer.from(str, 'hex')`: decode pairs until the first invalid or lone
character. -/
def hexDecode : List Char → List Nat
  | hi :: lo :: rest =>
    match hexVal hi, hexVal lo with
    | some h, some l => (16 * h + l) :: hexDecode rest
    | _, _ => []
  | _ => []

/-- `keys.keyStringIsValid(key)`: the decoded buffer must be exactly
B/8 = 20 bytes (`keyBufferIsValid`); `Buffer.from` never throws on a
string. -/
def keyStringIsValid (key : List Char) : Bool :=
  (hexDecode key).length = 20

/-! ## Protocol handlers (`lib/protocol.js`) -/

/-- An opaque stored item (`{ meta, blob }` records are external data). -/
abbrev Item := Nat

/-- Storage events emitted by the handlers. -/
inductive StorageEvent where
  | storage_put (key : List Char)
  | storage_get (key : List Char)
deriving DecidableEq, Repr

/-- The error string of the `InvalidKey` failure. -/
def invalidKeyMsg : String := "Invalid lookup key supplied"

/-- The error string of the `KeyHashMismatch` failure. -/
def keyHashMismatchMsg : String := "Key does not match value hash"

/-- What a handler's one-shot `respond` callback received. -/
inductive HandlerResult where
  | failure (message : String)
  | contacts (result : List Contact)
  | item (result : Option Item)
  | stored
deriving DecidableEq, Repr

/-- `Protocol#FIND_NODE(key, contact, respond)`: add the sender to the
routing table; fail with `Invalid lookup key supplied` unless the key
decodes to 20 bytes; otherwise respond with the closest contacts re-wrapped
as `Contact`s. -/
def protocolFindNode (r : Router) (key : List Char) (sender : Contact) :
    Router × HandlerResult × List StorageEvent :=
  let r := (routerAddContactByNodeId r sender.fingerprint sender).1
  if ¬ keyStringIsValid key then
    (r, HandlerResult.failure invalidKeyMsg, [])
  else
    (r, HandlerResult.contacts
      ((routerGetClosestContactsToKey r (hexDecode key)).map
        (fun p => { address := p.2.address, fingerprint := p.2.fingerprint })),
     [])

/-- `Protocol#FIND_VALUE(key, contact, respond)`: add the sender; fail on an
invalid key; otherwise emit `storage_get` and let the storage adapter's
callback finish the RPC: on a storage error fall through to `FIND_NODE`,
otherwise respond with the item (which may be absent).  The adapter's answer
is supplied as `storageErr`/`storageItem`. -/
def protocolFindValue (r : Router) (key : List Char) (sender : Contact)
    (storageErr : Bool) (storageItem : Option Item) :
    Router × HandlerResult × List StorageEvent :=
  let r := (routerAddContactByNodeId r sender.fingerprint sender).1
  if ¬ keyStringIsValid key then
    (r, HandlerResult.failure invalidKeyMsg, [])
  else if storageErr then
    let (r', res, evs) := protocolFindNode r key sender
    (r', res, StorageEvent.storage_get key :: evs)
  else
    (r, HandlerResult.item storageItem, [StorageEvent.storage_get key])

/-- `Protocol#STORE(key, { meta, blob }, contact, respond)`: add the sender;
compare `Buffer.from(key, 'hex')` against `hash160(blob)` (supplied here as
the 20-byte `blobHash`); on mismatch fail with `Key does not match value
hash`, otherwise emit `storage_put`. -/
def protocolStore (r : Router) (key : List Char) (blobHash : List Nat)
    (sender : Contact) : Router × HandlerResult × List StorageEvent :=
  let r := (routerAddContactByNodeId r sender.fingerprint sender).1
  if hexDecode key ≠ blobHash then
    (r, HandlerResult.failure keyHashMismatchMsg, [])
  else
    (r, HandlerResult.stored, [StorageEvent.storage_put key])

/-! ## Node — iterative lookup (`lib/node.js`, `_iterativeFind`)

Outbound RPCs are modelled by oracles: `rpc` gives the outcome of the
FIND_NODE / FIND_VALUE message sent to a contact (each contact is probed at
most once per lookup, so a function of the target captures every sequence of
outcomes), and `pingOk` gives the outcome of the head-probe PING issued by
`_updateContact`.  `Date.now()` is frozen to `now` for the duration of a
lookup. -/

/-- Outcome of one outbound FIND RPC, as delivered by the transport. -/
inductive RpcOutcome where
  | rpcError
  | nodes (result : List Contact)
  | value (result : Item)
deriving DecidableEq, Repr

inductive FindMethod where
  | FIND_NODE
  | FIND_VALUE
deriving DecidableEq, Repr

/-- Environment of a lookup: the local contact and the transport oracles. -/
structure LookupCtx where
  selfContact : Contact
  rpc : Contact → RpcOutcome
  pingOk : Contact → Bool
  now : Int

/-- Events observable during a lookup that the claims need: the
fire-and-forget STORE queued by the FIND_VALUE value branch (its `respond`
callback is `() => null`, so nothing ever waits on it). -/
inductive LookupEvent where
  | storeQueued (target : Contact)
deriving DecidableEq, Repr

/-- Mutable node state threaded through a lookup: the routing table, the
`_pings` throttle table, the `_lookups` bucket-refresh table, and the event
trace. -/
structure NodeState where
  router : Router
  pings : List (NodeId × Int × Bool)
  lookups : List (Nat × Int)
  events : List LookupEvent

/-- `this._pings.get(id)`. -/
def pingsGet (ps : List (NodeId × Int × Bool)) (id : NodeId) :
    Option (Int × Bool) :=
  match ps.find? (fun p => p.1 = id) with
  | some p => some p.2
  | none => none

/-- `this._pings.set(id, entry)` (JS `Map` semantics). -/
def pingsSet (ps : List (NodeId × Int × Bool)) (id : NodeId)
    (entry : Int × Bool) : List (NodeId × Int × Bool) :=
  if (ps.find? (fun p => p.1 = id)).isSome then
    ps.map (fun p => if p.1 = id then (id, entry) else p)
  else ps ++ [(id, entry)]

/-- `this._lookups.set(index, timestamp)`. -/
def lookupsSet (ls : List (Nat × Int)) (i : Nat) (t : Int) :
    List (Nat × Int) :=
  if (ls.find? (fun p => p.1 = i)).isSome then
    ls.map (fun p => if p.1 = i then (i, t) else p)
  else ls ++ [(i, t)]

/-- Result of `_updateContact`: its promise either resolves or rejects (the
rejection carries the head-probe PING failure). -/
inductive UpdateResult where
  | ok (st : NodeState)
  | rejected (st : NodeState)

/-- `Node#_updateContact(contact)`: skip the local identity; insert via
`addContactByNodeId`; if the bucket accepted (`contactIndex !== -1`) or the
head answered a PING within the last 10 minutes, resolve; otherwise PING the
head: on success record it and resolve, on failure record it, evict the
head, insert the new contact, and reject. -/
def updateContact (ctx : LookupCtx) (st : NodeState) (c0 : Contact) :
    UpdateResult :=
  let c : Contact := { address := c0.address, fingerprint := c0.fingerprint }
  let identity := c.fingerprint
  if identity = ctx.selfContact.fingerprint then UpdateResult.ok st
  else
    let reset : Int := 600000
    let (router, _, bucket, contactIndex, _) :=
      routerAddContactByNodeId st.router identity c
    let st := { st with router := router }
    match bucketHead bucket with
    | none =>
      -- unreachable: after `set` the bucket is nonempty; destructuring
      -- `undefined` would throw, which also fails the caller's `await`
      UpdateResult.rejected st
    | some (headId, headContact) =>
      let lastPing := pingsGet st.pings headId
      if contactIndex ≠ -1 then UpdateResult.ok st
      else if (match lastPing with
               | some (ts, responded) => responded && decide (ts > ctx.now - reset)
               | none => false) then UpdateResult.ok st
      else if ctx.pingOk headContact then
        UpdateResult.ok
          { st with pings := pingsSet st.pings headId (ctx.now, true) }
      else
        let st := { st with pings := pingsSet st.pings headId (ctx.now, false) }
        let (router, _) := routerRemoveContactByNodeId st.router headId
        let router := (routerAddContactByNodeId router identity c).1
        UpdateResult.rejected { st with router := router }

/-- `await this._updateContact(added[i])` over the newly added contacts, in
order; the `await` is not guarded by any try/catch, so the first rejection
aborts the enclosing async function. -/
def updateMany (ctx : LookupCtx) : NodeState → List Contact → UpdateResult
  | st, [] => UpdateResult.ok st
  | st, c :: rest =>
    match updateContact ctx st c with
    | UpdateResult.ok st' => updateMany ctx st' rest
    | UpdateResult.rejected st' => UpdateResult.rejected st'

/-- How a lookup promise ends: `resolvedNodes` / `resolvedValue` are calls
to `resolve`; `never` means the promise is never settled (an exception or
unhandled rejection escaped the `iterativeLookup` async function, so
`resolve` is unreachable). -/
inductive LookupOutcome where
  | resolvedNodes (result : List Contact)
  | resolvedValue (result : Item)
  | never
deriving DecidableEq, Repr

/-- `closest[0] === shortlist.closest[0]` in the source compares property
`"0"` of two `Contact` objects; neither has such a property, so both sides
are `undefined` and the comparison is always `true`. -/
def noCloserContactFound : Bool := true

/-- The sequential `for` loop over one wave's `selection`: mark contacted,
await the RPC (`catch → continue`), mark responded, and either merge a
contact list (running `_updateContact` on each newly added contact) or take
the FIND_VALUE value branch (queue a STORE to `shortlist.active[0]` and
resolve with the value).  Returns the final state, shortlist, and `some`
outcome if the loop resolved or aborted early. -/
def runSelection (ctx : LookupCtx) (method : FindMethod) :
    NodeState → ContactList → List Contact →
    NodeState × ContactList × Option LookupOutcome
  | st, sl, [] => (st, sl, none)
  | st, sl, contact :: rest =>
    let sl := clContacted sl contact
    match ctx.rpc contact with
    | RpcOutcome.rpcError => runSelection ctx method st sl rest
    | RpcOutcome.nodes ns =>
      let sl := clResponded sl contact
      -- `Array.isArray(result) || method !== 'FIND_VALUE'` holds
      let (sl, added) := clAdd sl ns
      match updateMany ctx st added with
      | UpdateResult.ok st' => runSelection ctx method st' sl rest
      | UpdateResult.rejected st' => (st', sl, some LookupOutcome.never)
    | RpcOutcome.value v =>
      match method with
      | FindMethod.FIND_NODE =>
        -- `_wrapFindRpc` maps a FIND_NODE result with `result.map`; a
        -- non-array result throws inside the respond callback and the RPC
        -- promise is never settled
        (st, sl, some LookupOutcome.never)
      | FindMethod.FIND_VALUE =>
        let sl := clResponded sl contact
        match (clActive sl).head? with
        | none =>
          -- unreachable (the responder is active): `shortlist.active[0]`
          -- would be undefined and reading `.address` throws
          (st, sl, some LookupOutcome.never)
        | some closestActive =>
          let closestMissingValue : Contact :=
            { address := closestActive.address,
              fingerprint := closestActive.fingerprint }
          let st := { st with
            events := st.events ++ [LookupEvent.storeQueued closestMissingValue] }
          (st, sl, some (LookupOutcome.resolvedValue v))

/-- The recursive `iterativeLookup(selection, continueLookup)` of
`_iterativeFind`, in its `continueLookup = false` instance (the finishing
trip).  After the wave, the resolve condition
`active.length >= K || (noCloser && !continueLookup)` holds outright, so
this instance never recurses. -/
def iterativeLookupFinal (ctx : LookupCtx) (method : FindMethod)
    (st : NodeState) (sl : ContactList) (selection : List Contact) :
    NodeState × LookupOutcome :=
  if selection.isEmpty then
    (st, LookupOutcome.resolvedNodes ((clActive sl).take K))
  else
    match runSelection ctx method st sl selection with
    | (st', _, some outcome) => (st', outcome)
    | (st', sl', none) =>
      (st', LookupOutcome.resolvedNodes ((clActive sl').take K))

/-- `iterativeLookup(selection, continueLookup)`.  The only recursive call
the source can reach is the finishing trip
`iterativeLookup(shortlist.uncontacted.slice(0, K), false)`: the
`closest[0] === shortlist.closest[0]` comparison is always true (see
`noCloserContactFound`), so the bottom ALPHA-wave recursion is dead code,
and the finishing trip itself always resolves.  The recursion is therefore
unrolled into `iterativeLookupFinal`. -/
def iterativeLookup (ctx : LookupCtx) (method : FindMethod) (st : NodeState)
    (sl : ContactList) (selection : List Contact) (continueLookup : Bool) :
    NodeState × LookupOutcome :=
  if selection.isEmpty then
    (st, LookupOutcome.resolvedNodes ((clActive sl).take K))
  else
    match runSelection ctx method st sl selection with
    | (st', _, some outcome) => (st', outcome)
    | (st', sl', none) =>
      if K ≤ (clActive sl').length ∨
          (noCloserContactFound = true ∧ continueLookup = false) then
        (st', LookupOutcome.resolvedNodes ((clActive sl').take K))
      else
        iterativeLookupFinal ctx method st' sl' ((clUncontacted sl').take K)

/-- `Node#_iterativeFind(method, key)`: build the shortlist from the ALPHA
closest routing-table contacts, stamp `_lookups[bucketIndex]`, and run the
first ALPHA-wave.  (The `closest` snapshot taken here only feeds the
always-true `closest[0] === shortlist.closest[0]` comparison.) -/
def iterativeFind (ctx : LookupCtx) (method : FindMethod) (st : NodeState)
    (key : NodeId) : NodeState × LookupOutcome :=
  let sl := clInit key
    ((routerGetClosestContactsToKey st.router key ALPHA false).map
      (fun p => { address := p.2.address, fingerprint := p.2.fingerprint }))
  let st := { st with
    lookups := lookupsSet st.lookups
      (getBucketIndex ctx.selfContact.fingerprint key) ctx.now }
  iterativeLookup ctx method st sl ((clUncontacted sl).take ALPHA) true

/-- `Node#iterativeFindNode(key)`: run `_iterativeFind('FIND_NODE', key)`;
on resolution add every returned contact to the routing table and resolve
with re-wrapped contacts. -/
def iterativeFindNode (ctx : LookupCtx) (st : NodeState) (key : NodeId) :
    NodeState × LookupOutcome :=
  match iterativeFind ctx FindMethod.FIND_NODE st key with
  | (st', LookupOutcome.resolvedNodes cs) =>
    let st'' := cs.foldl
      (fun s c => { s with
        router := (routerAddContactByNodeId s.router c.fingerprint
          { address := c.address, fingerprint := c.fingerprint }).1 }) st'
    (st'', LookupOutcome.resolvedNodes
      (cs.map (fun c => { address := c.address, fingerprint := c.fingerprint })))
  | other => other

/-- `Node#iterativeFindValue(key)` = `_iterativeFind('FIND_VALUE', key)`. -/
def iterativeFindValue (ctx : LookupCtx) (st : NodeState) (key : NodeId) :
    NodeState × LookupOutcome :=
  iterativeFind ctx FindMethod.FIND_VALUE st key

/-! ## join / refresh plumbing (`lib/node.js`) -/

/-- In `_join`, the source computes `this.router.getClosestBucket() + 1`:
`getClosestBucket()` returns the `[index, bucket]` array, `array + 1`
coerces the array to the string `"index,[object Map]"` and appends `"1"`,
and `Array.prototype.slice` converts that non-numeric string argument
(`ToIntegerOrInfinity(NaN)`) to 0. -/
def joinRefreshSliceArg (_closestBucket : Nat × Bucket) : Nat := 0

/-- The candidate bucket indices gathered by `_refresh(startIndex)`:
`[...this.router.entries()].slice(startIndex).map(entry => entry[0])`. -/
def refreshCandidateIndices (r : Router) (startIndex : Nat) : List Nat :=
  (List.range r.buckets.length).drop startIndex

/-- The refresh candidates `_join` passes on after its initial lookup:
`this.refresh(this.router.getClosestBucket() + 1)`. -/
def joinRefreshCandidates (r : Router) : List Nat :=
  refreshCandidateIndices r (joinRefreshSliceArg (routerGetClosestBucket r))

/-! ## Helper lemmas -/

theorem findIdxP_none_of_all {α} (p : α → Bool) (l : List α)
    (h : ∀ x ∈ l, ¬ p x) : l.findIdx? p = none := by
  induction l with
  | nil => rfl
  | cons a t ih =>
    have ha : ¬ p a := h a (List.mem_cons_self a t)
    simp only [List.findIdx?_cons]
    rw [if_neg ha]
    have := ih (fun x hx => h x (List.mem_cons_of_mem a hx))
    simp [List.findIdx?_succ, this]

theorem findIdxP_append_left_none {α} (p : α → Bool) (l1 l2 : List α)
    (h : ∀ x ∈ l1, ¬ p x) :
    (l1 ++ l2).findIdx? p = (l2.findIdx? p).map (fun i => i + l1.length) := by
  induction l1 with
  | nil => simp [Option.map_id']
  | cons a t ih =>
    have ha : ¬ p a := h a (List.mem_cons_self a t)
    simp only [List.cons_append, List.findIdx?_cons]
    rw [if_neg ha]
    rw [List.findIdx?_succ, ih (fun x hx => h x (List.mem_cons_of_mem a hx))]
    cases l2.findIdx? p <;> simp; omega

/-- Keys of a cons. -/
theorem bucketKeys_cons (a : NodeId × Contact) (t : List (NodeId × Contact)) :
    bucketKeys (a :: t) = a.1 :: bucketKeys t := rfl

/-- With distinct keys, deleting a present key removes exactly one entry. -/
theorem mapDelete_length (b : Bucket) (nodeId : NodeId)
    (hnd : (bucketKeys b).Nodup) (hmem : nodeId ∈ bucketKeys b) :
    (mapDelete b nodeId).length = b.length - 1 := by
  induction b with
  | nil => cases hmem
  | cons a t ih =>
    rw [bucketKeys_cons] at hnd hmem
    have hnd' := List.nodup_cons.1 hnd
    by_cases ha : a.1 = nodeId
    · have htkeys : nodeId ∉ bucketKeys t := fun hc => hnd'.1 (ha ▸ hc)
      have hdel : mapDelete (a :: t) nodeId = t := by
        unfold mapDelete
        rw [List.filter_cons, if_neg (by simp [ha])]
        apply List.filter_eq_self.2
        intro x hx
        simp only [ne_eq, decide_eq_true_eq]
        intro hc
        exact htkeys (List.mem_map.2 ⟨x, hx, hc⟩)
      simp [hdel]
    · have hmem' : nodeId ∈ bucketKeys t := by
        rcases List.mem_cons.1 hmem with h | h
        · exact absurd h.symm ha
        · exact h
      have hlen := ih hnd'.2 hmem'
      have hpos : 1 ≤ t.length := by
        rcases List.mem_map.1 hmem' with ⟨x, hx, _⟩
        exact List.length_pos.2 (List.ne_nil_of_mem hx)
      unfold mapDelete at hlen ⊢
      rw [List.filter_cons, if_pos (by simp [ha])]
      simp only [List.length_cons, hlen]
      omega

/-- Deleting a key removes it from the key set. -/
theorem mapDelete_not_mem (b : Bucket) (nodeId : NodeId) :
    nodeId ∉ bucketKeys (mapDelete b nodeId) := by
  simp only [bucketKeys, mapDelete, List.mem_map]
  rintro ⟨x, hx, hx1⟩
  rcases List.mem_filter.1 hx with ⟨-, hkeep⟩
  simp [hx1] at hkeep

/-! ## C9 — Bucket.set case analysis -/

/-- C9: for every `Bucket` and every `set(nodeId, contact)` call: if `nodeId`
is present the entry is re-inserted at the tail and its new index
(`length − 1`) is returned; if absent and fewer than K entries are held the
contact is prepended at the head and 0 is returned; if absent and the bucket
is full, −1 is returned and the contents are unchanged; and `set` never
evicts another entry. -/
theorem C9_bucket_set_spec (b : Bucket) (nodeId : NodeId) (c : Contact)
    (hnd : (bucketKeys b).Nodup) :
    (nodeId ∈ bucketKeys b →
      bucketSet b nodeId c =
        (mapDelete b nodeId ++ [(nodeId, c)], (b.length : Int) - 1)) ∧
    (nodeId ∉ bucketKeys b → b.length < K →
      bucketSet b nodeId c = ((nodeId, c) :: b, 0)) ∧
    (nodeId ∉ bucketKeys b → K ≤ b.length →
      bucketSet b nodeId c = (b, -1)) ∧
    (∀ p ∈ b, p.1 ≠ nodeId → p ∈ (bucketSet b nodeId c).1) := by
  have hsetb : nodeId ∈ bucketKeys b →
      bucketSetBucket b nodeId c = mapDelete b nodeId ++ [(nodeId, c)] := by
    intro h
    unfold bucketSetBucket
    rw [if_pos h]
    simp [mapSet, mapDelete_not_mem b nodeId]
  refine ⟨?_, ?_, ?_, ?_⟩
  · intro hmem
    have hb := hsetb hmem
    have hidx : bucketIndexOf (mapDelete b nodeId ++ [(nodeId, c)]) nodeId =
        ((mapDelete b nodeId).length : Int) := by
      unfold bucketIndexOf
      rw [findIdxP_append_left_none]
      · simp [List.findIdx?_cons]
      · intro x hx
        have hxne : x.1 ≠ nodeId := by
          intro hcontra
          exact mapDelete_not_mem b nodeId (List.mem_map.2 ⟨x, hx, hcontra⟩)
        simpa using hxne
    have hlen := mapDelete_length b nodeId hnd hmem
    have hpos : 1 ≤ b.length := by
      rcases List.mem_map.1 hmem with ⟨x, hx, _⟩
      exact List.length_pos.2 (List.ne_nil_of_mem hx)
    unfold bucketSet
    rw [hb, hidx, hlen]
    congr 1
    omega
  · intro habs hlt
    have hb : bucketSetBucket b nodeId c = (nodeId, c) :: b := by
      unfold bucketSetBucket
      rw [if_neg habs, if_pos hlt]
    unfold bucketSet
    rw [hb]
    simp [bucketIndexOf, List.findIdx?_cons]
  · intro habs hge
    have hb : bucketSetBucket b nodeId c = b := by
      unfold bucketSetBucket
      rw [if_neg habs, if_neg (by omega)]
    have hidx : bucketIndexOf b nodeId = -1 := by
      unfold bucketIndexOf
      rw [findIdxP_none_of_all]
      intro x hx
      have hxne : x.1 ≠ nodeId := by
        intro hcontra
        exact habs (List.mem_map.2 ⟨x, hx, hcontra⟩)
      simpa using hxne
    unfold bucketSet
    rw [hb, hidx]
  · intro p hp hne
    show p ∈ bucketSetBucket b nodeId c
    unfold bucketSetBucket
    by_cases hmem : nodeId ∈ bucketKeys b
    · rw [if_pos hmem]
      have hms : mapSet (mapDelete b nodeId) nodeId c =
          mapDelete b nodeId ++ [(nodeId, c)] := by
        simp [mapSet, mapDelete_not_mem b nodeId]
      rw [hms]
      exact List.mem_append_left _
        (List.mem_filter.2 ⟨hp, by simpa using hne⟩)
    · rw [if_neg hmem]
      by_cases hlt : b.length < K
      · rw [if_pos hlt]
        exact List.mem_cons_of_mem _ hp
      · rw [if_neg hlt]
        exact hp

/-- Concrete contacts and bucket for witnesses. -/
def cW1 : Contact := { address := 8, fingerprint := [1] }

def cW2 : Contact := { address := 9, fingerprint := [2] }

def bW : Bucket := [([1], cW1), ([2], cW2)]

/-- Witness for C9 at a concrete bucket: re-setting a present key moves it
to the tail and returns index 1. -/
theorem C9_bucket_set_spec_witness :
    (bucketKeys bW).Nodup ∧
    bucketSet bW [1] cW1 = ([([2], cW2), ([1], cW1)], 1) := by
  have h := C9_bucket_set_spec bW [1] cW1 (by decide)
  refine ⟨by decide, ?_⟩
  have h1 := h.1 (by decide)
  rw [h1]
  decide

/-! ## C8 — ContactList invariants under arbitrary operation sequences -/

/-- One call on a `ContactList`. -/
inductive CLOp where
  | add (contacts : List Contact)
  | contacted (c : Contact)
  | responded (c : Contact)
deriving Repr

/-- Apply one `ContactList` call. -/
def clApply (cl : ContactList) : CLOp → ContactList
  | CLOp.add cs => (clAdd cl cs).1
  | CLOp.contacted c => clContacted cl c
  | CLOp.responded c => clResponded cl c

/-- Apply a sequence of `ContactList` calls. -/
def clApplyAll (cl : ContactList) (ops : List CLOp) : ContactList :=
  ops.foldl clApply cl

/-- Discipline followed by the lookup code: every `responded(c)` happens
after a `contacted` of the same fingerprint (relative to fingerprints in
`contacted0` at the start). -/
def RespOk (contacted0 : List NodeId) : List CLOp → Bool
  | [] => true
  | CLOp.add _ :: rest => RespOk contacted0 rest
  | CLOp.contacted c :: rest => RespOk (contacted0 ++ [c.fingerprint]) rest
  | CLOp.responded c :: rest =>
    c.fingerprint ∈ contacted0 && RespOk contacted0 rest

theorem disjointSingletonRight {α} (s : List α) (id : α) (h : id ∉ s) :
    List.Disjoint s [id] := by
  intro a ha hb
  rcases List.mem_singleton.1 hb with rfl
  exact h ha

theorem setAdd_mem (s : List NodeId) (id f : NodeId) :
    f ∈ setAdd s id ↔ f ∈ s ∨ f = id := by
  unfold setAdd
  by_cases h : id ∈ s
  · rw [if_pos h]
    constructor
    · exact Or.inl
    · rintro (hf | rfl) <;> assumption
  · rw [if_neg h]
    simp

theorem setAdd_nodup (s : List NodeId) (id : NodeId) (h : s.Nodup) :
    (setAdd s id).Nodup := by
  unfold setAdd
  by_cases hmem : id ∈ s
  · rwa [if_pos hmem]
  · rw [if_neg hmem]
    exact List.Nodup.append h (List.nodup_singleton id)
      (disjointSingletonRight s id hmem)

/-- The `add` fold keeps `identities = existing fingerprints ++ added
fingerprints` and never appends a fingerprint already tracked. -/
theorem clAddStep_foldl_invariant (cs : List Contact) (ids0 : List NodeId) :
    ∀ acc : List Contact × List NodeId,
      acc.2 = ids0 ++ acc.1.map Contact.fingerprint →
      (cs.foldl clAddStep acc).2 =
        ids0 ++ ((cs.foldl clAddStep acc).1).map Contact.fingerprint ∧
      (acc.2.Nodup → (cs.foldl clAddStep acc).2.Nodup) := by
  induction cs with
  | nil => intro acc hacc; exact ⟨hacc, fun h => h⟩
  | cons c rest ih =>
    intro acc hacc
    simp only [List.foldl_cons]
    by_cases hmem : c.fingerprint ∈ acc.2
    · rw [show clAddStep acc c = acc by simp [clAddStep, hmem]]
      exact ih acc hacc
    · rw [show clAddStep acc c = (acc.1 ++ [c], acc.2 ++ [c.fingerprint]) by
        simp [clAddStep, hmem]]
      have hacc' : (acc.1 ++ [c], acc.2 ++ [c.fingerprint]).2 =
          ids0 ++ (((acc.1 ++ [c], acc.2 ++ [c.fingerprint])).1.map
            Contact.fingerprint) := by
        simp [hacc]
      have h := ih _ hacc'
      refine ⟨h.1, fun hnd => h.2 ?_⟩
      exact List.Nodup.append hnd (List.nodup_singleton _)
        (disjointSingletonRight acc.2 c.fingerprint hmem)

/-- `add` never creates a duplicate fingerprint in the contact list. -/
theorem clAdd_contacts_nodup (cl : ContactList) (cs : List Contact)
    (h : (cl.contacts.map Contact.fingerprint).Nodup) :
    ((((clAdd cl cs).1).contacts).map Contact.fingerprint).Nodup := by
  have hinv := clAddStep_foldl_invariant cs (cl.contacts.map Contact.fingerprint)
    ([], cl.contacts.map Contact.fingerprint) (by simp)
  have hnd : ((cl.contacts ++ clAddAdded cl cs).map Contact.fingerprint).Nodup := by
    rw [List.map_append]
    have := hinv.2 h
    rw [hinv.1] at this
    exact this
  have hperm : ((cl.contacts ++ clAddAdded cl cs).insertionSort
      (fun a b => distLE cl.key a.fingerprint b.fingerprint)).Perm
      (cl.contacts ++ clAddAdded cl cs) :=
    List.perm_insertionSort _ _
  have := (hperm.map Contact.fingerprint).nodup_iff.2 hnd
  simpa [clAdd] using this

/-- The contacted set only grows under any `ContactList` call. -/
theorem clApply_contacted_mono (cl : ContactList) (op : CLOp) (f : NodeId)
    (h : f ∈ cl.contactedSet) : f ∈ (clApply cl op).contactedSet := by
  cases op with
  | add cs => exact h
  | contacted c => exact (setAdd_mem _ _ _).2 (Or.inl h)
  | responded c => exact h

/-- If every `responded` is covered by an earlier `contacted` (relative to
`S`, whose fingerprints are already contacted), the active set stays inside
the contacted set. -/
theorem clApplyAll_active_subset (ops : List CLOp) :
    ∀ (cl : ContactList) (S : List NodeId),
      (∀ f ∈ S, f ∈ cl.contactedSet) →
      (∀ f ∈ cl.activeSet, f ∈ cl.contactedSet) →
      RespOk S ops = true →
      ∀ f ∈ (clApplyAll cl ops).activeSet, f ∈ (clApplyAll cl ops).contactedSet := by
  induction ops with
  | nil => intro cl S _ hsub _; exact hsub
  | cons op rest ih =>
    intro cl S hS hsub hresp
    cases op with
    | add cs =>
      exact ih ((clAdd cl cs).1) S hS hsub (by simpa [RespOk] using hresp)
    | contacted c =>
      refine ih (clContacted cl c) (S ++ [c.fingerprint]) ?_ ?_
        (by simpa [RespOk] using hresp)
      · intro f hf
        rcases List.mem_append.1 hf with hf | hf
        · exact (setAdd_mem _ _ _).2 (Or.inl (hS f hf))
        · rcases List.mem_singleton.1 hf with rfl
          exact (setAdd_mem _ _ _).2 (Or.inr rfl)
      · intro f hf
        exact (setAdd_mem _ _ _).2 (Or.inl (hsub f hf))
    | responded c =>
      have hresp' : c.fingerprint ∈ S ∧ RespOk S rest = true := by
        simpa [RespOk] using hresp
      refine ih (clResponded cl c) S hS ?_ hresp'.2
      intro f hf
      rcases (setAdd_mem _ _ _).1 hf with hf | rfl
      · exact hsub f hf
      · exact hS c.fingerprint hresp'.1

/-- The no-duplicate invariants survive every call sequence. -/
theorem clApplyAll_nodup (ops : List CLOp) :
    ∀ cl : ContactList,
      (cl.contacts.map Contact.fingerprint).Nodup →
      cl.contactedSet.Nodup → cl.activeSet.Nodup →
      ((clApplyAll cl ops).contacts.map Contact.fingerprint).Nodup ∧
      (clApplyAll cl ops).contactedSet.Nodup ∧
      (clApplyAll cl ops).activeSet.Nodup := by
  induction ops with
  | nil => intro cl h1 h2 h3; exact ⟨h1, h2, h3⟩
  | cons op rest ih =>
    intro cl h1 h2 h3
    cases op with
    | add cs => exact ih _ (clAdd_contacts_nodup cl cs h1) h2 h3
    | contacted c => exact ih _ h1 (setAdd_nodup _ _ h2) h3
    | responded c => exact ih _ h1 h2 (setAdd_nodup _ _ h3)

/-! ## C8 — claim, counterexample, amended theorem -/

/-- C8 (counterexample): `responded(c)` does not mark `c` as contacted.  On
a fresh `ContactList` holding one contact, calling `responded` alone puts
the fingerprint in the active set while the contacted set stays empty, so
the claimed `active ⊆ contacted` invariant fails. -/
theorem C8_responded_without_contacted_cex :
    ¬ (∀ f ∈ (clApplyAll (clInit [3] [cW1]) [CLOp.responded cW1]).activeSet,
        f ∈ (clApplyAll (clInit [3] [cW1]) [CLOp.responded cW1]).contactedSet) := by
  decide

/-- C8 (amended): for every `ContactList` and every sequence of
add/contacted/responded calls, the contact list, the contacted set and the
active set never hold a duplicate fingerprint; and provided every
`responded(c)` call is preceded by a `contacted` call for the same
fingerprint (which `responded` itself does not ensure), the active
fingerprint set stays a subset of the contacted fingerprint set. -/
theorem C8_contactlist_invariants (key : NodeId) (init : List Contact)
    (ops : List CLOp) (hresp : RespOk [] ops = true) :
    (((clApplyAll (clInit key init) ops).contacts.map Contact.fingerprint).Nodup ∧
      (clApplyAll (clInit key init) ops).contactedSet.Nodup ∧
      (clApplyAll (clInit key init) ops).activeSet.Nodup) ∧
    ∀ f ∈ (clApplyAll (clInit key init) ops).activeSet,
      f ∈ (clApplyAll (clInit key init) ops).contactedSet := by
  have hinit : ((clInit key init).contacts.map Contact.fingerprint).Nodup :=
    clAdd_contacts_nodup
      { key := key, contacts := [], contactedSet := [], activeSet := [] }
      init (by simp)
  refine ⟨clApplyAll_nodup ops _ hinit ?_ ?_, ?_⟩
  · exact List.nodup_nil
  · exact List.nodup_nil
  · refine clApplyAll_active_subset ops _ [] ?_ ?_ hresp
    · intro f hf; cases hf
    · intro f hf; cases hf

/-- Witness for C8 at a concrete call sequence. -/
theorem C8_contactlist_invariants_witness :
    RespOk [] [CLOp.contacted cW1, CLOp.responded cW1, CLOp.add [cW2]] = true ∧
    ∀ f ∈ (clApplyAll (clInit [3] [cW1])
        [CLOp.contacted cW1, CLOp.responded cW1, CLOp.add [cW2]]).activeSet,
      f ∈ (clApplyAll (clInit [3] [cW1])
        [CLOp.contacted cW1, CLOp.responded cW1, CLOp.add [cW2]]).contactedSet :=
  ⟨by decide,
   (C8_contactlist_invariants [3] [cW1]
     [CLOp.contacted cW1, CLOp.responded cW1, CLOp.add [cW2]] (by decide)).2⟩

/-! ## Concrete fixtures shared by several results -/

/-- The all-zero local identity. -/
def idZero : NodeId := List.replicate 20 0

/-- A 20-byte key whose last byte is `b`. -/
def mkKey (b : Nat) : NodeId := List.replicate 19 0 ++ [b]

/-- A full bucket: the 20 contacts at distance 32..51 from `idZero`, all of
which live in bucket 5. -/
def fullBucket5 : Bucket :=
  (List.range 20).map
    (fun k => (mkKey (32 + k), { address := 32 + k, fingerprint := mkKey (32 + k) }))

/-- A router whose bucket 5 is full and all other buckets empty. -/
def routerFull : Router :=
  { identity := idZero,
    buckets := (List.replicate B ([] : Bucket)).set 5 fullBucket5 }

/-- A contact at distance 52 from `idZero` (bucket 5, not yet stored). -/
def contactNew : Contact := { address := 99, fingerprint := mkKey 52 }

/-! ## C7 — contact_added emission -/

theorem list_set_getD_self {α} (l : List α) (i : Nat) (d : α)
    (h : i < l.length) : l.set i (l.getD i d) = l := by
  induction l generalizing i with
  | nil => cases h
  | cons a t ih =>
    cases i with
    | zero => rfl
    | succ n =>
      have h' : n < t.length := by simpa using h
      show a :: t.set n ((a :: t).getD (n + 1) d) = a :: t
      rw [List.getD_cons_succ, ih n h']

set_option maxRecDepth 160000 in
/-- C7 (counterexample): adding an absent contact to a full bucket returns
the sentinel `contactIndex = -1` and leaves the table unchanged, yet
`contact_added` is still emitted — the source emits it on every call, so the
claimed "emits iff the set succeeded" equivalence is false. -/
theorem C7_contact_added_on_full_bucket_cex :
    (routerAddContactByNodeId routerFull (mkKey 52) contactNew).2.2.2.1 = -1 ∧
    (routerAddContactByNodeId routerFull (mkKey 52) contactNew).2.2.2.2 =
      [RouterEvent.contact_added (mkKey 52)] ∧
    (routerAddContactByNodeId routerFull (mkKey 52) contactNew).1.buckets =
      routerFull.buckets := by
  decide

/-- C7 (amended): `addContactByNodeId` emits `contact_added` on every call,
whether or not the bucket accepted the contact; when the target bucket is
full and the contact absent, `contactIndex = -1` is returned and the table
is left unchanged. -/
theorem C7_router_add_contact_events (r : Router) (nodeId : NodeId)
    (c : Contact)
    (habs : nodeId ∉ bucketKeys (r.buckets.getD (routerIndexOf r nodeId) []))
    (hfull : K ≤ (r.buckets.getD (routerIndexOf r nodeId) []).length)
    (hidx : routerIndexOf r nodeId < r.buckets.length) :
    (routerAddContactByNodeId r nodeId c).2.2.2.2 =
      [RouterEvent.contact_added nodeId] ∧
    (routerAddContactByNodeId r nodeId c).2.2.2.1 = -1 ∧
    (routerAddContactByNodeId r nodeId c).1.buckets = r.buckets := by
  have hb : bucketSetBucket (r.buckets.getD (routerIndexOf r nodeId) [])
      nodeId c = r.buckets.getD (routerIndexOf r nodeId) [] := by
    unfold bucketSetBucket
    rw [if_neg habs, if_neg (by omega)]
  have hidxval : bucketIndexOf (r.buckets.getD (routerIndexOf r nodeId) [])
      nodeId = -1 := by
    unfold bucketIndexOf
    rw [findIdxP_none_of_all]
    intro x hx
    have hxne : x.1 ≠ nodeId := by
      intro hcontra
      exact habs (List.mem_map.2 ⟨x, hx, hcontra⟩)
    simpa using hxne
  refine ⟨rfl, ?_, ?_⟩
  · show (bucketSet (r.buckets.getD (routerIndexOf r nodeId) []) nodeId c).2 = -1
    unfold bucketSet
    rw [hb, hidxval]
  · show r.buckets.set (routerIndexOf r nodeId)
      (bucketSet (r.buckets.getD (routerIndexOf r nodeId) []) nodeId c).1 =
      r.buckets
    unfold bucketSet
    simp only [hb]
    exact list_set_getD_self r.buckets (routerIndexOf r nodeId) [] hidx

set_option maxRecDepth 160000 in
/-- Witness for C7 at the concrete full-bucket router. -/
theorem C7_router_add_contact_events_witness :
    ((mkKey 52) ∉ bucketKeys
      (routerFull.buckets.getD (routerIndexOf routerFull (mkKey 52)) []) ∧
     K ≤ (routerFull.buckets.getD (routerIndexOf routerFull (mkKey 52)) []).length ∧
     routerIndexOf routerFull (mkKey 52) < routerFull.buckets.length) ∧
    (routerAddContactByNodeId routerFull (mkKey 52) contactNew).2.2.2.2 =
      [RouterEvent.contact_added (mkKey 52)] :=
  ⟨⟨by decide, by decide, by decide⟩,
   (C7_router_add_contact_events routerFull (mkKey 52) contactNew
     (by decide) (by decide) (by decide)).1⟩

/-! ## C6 — getClosestContactsToKey result size and ordering -/

/-- With `exclusive = false` the filter keeps every entry and the map is the
identity, so `getClosestToKey` is the sorted prefix. -/
theorem bucketGetClosestToKey_false (b : Bucket) (key : NodeId) (n : Nat) :
    bucketGetClosestToKey b key n false =
      (b.insertionSort (fun p q => distLE key p.1 q.1)).take n := by
  unfold bucketGetClosestToKey
  simp

theorem mapSet_keys_of_mem (b : Bucket) (id : NodeId) (c : Contact)
    (h : id ∈ bucketKeys b) :
    bucketKeys (mapSet b id c) = bucketKeys b := by
  unfold mapSet
  rw [if_pos h]
  unfold bucketKeys
  rw [List.map_map]
  apply List.map_congr_left
  intro p _
  by_cases hp : p.1 = id
  · simp [hp]
  · simp [hp]

theorem mapSet_of_not_mem (b : Bucket) (id : NodeId) (c : Contact)
    (h : id ∉ bucketKeys b) :
    mapSet b id c = b ++ [(id, c)] := by
  unfold mapSet
  rw [if_neg h]

theorem mapSet_length_of_mem (b : Bucket) (id : NodeId) (c : Contact)
    (h : id ∈ bucketKeys b) :
    (mapSet b id c).length = b.length := by
  unfold mapSet
  rw [if_pos h]
  exact List.length_map b _

/-- Folding `mapSet` over entries whose keys are all already present keeps
the key list unchanged. -/
theorem foldl_mapSet_subset (taken : List (NodeId × Contact)) :
    ∀ (acc : List (NodeId × Contact)) (n : Nat),
      (∀ k ∈ taken.map Prod.fst, k ∈ bucketKeys acc) →
      bucketKeys (taken.foldl
        (fun a p => if a.length < n then mapSet a p.1 p.2 else a) acc) =
        bucketKeys acc := by
  induction taken with
  | nil => intro acc n _; rfl
  | cons q rest ih =>
    intro acc n hsub
    simp only [List.foldl_cons]
    by_cases hlt : acc.length < n
    · rw [if_pos hlt]
      have hq : q.1 ∈ bucketKeys acc := hsub q.1 (by simp)
      rw [ih (mapSet acc q.1 q.2) n ?_, mapSet_keys_of_mem acc q.1 q.2 hq]
      intro k hk
      rw [mapSet_keys_of_mem acc q.1 q.2 hq]
      exact hsub k (by simp [hk])
    · rw [if_neg hlt]
      exact ih acc n (fun k hk => hsub k (by simp [hk]))

/-- Folding `mapSet` over entries with fresh, distinct keys appends them, as
long as the guard budget suffices. -/
theorem foldl_mapSet_fresh (taken : List (NodeId × Contact)) :
    ∀ (acc : List (NodeId × Contact)) (n : Nat),
      (taken.map Prod.fst).Nodup →
      (∀ k ∈ taken.map Prod.fst, k ∉ bucketKeys acc) →
      acc.length + taken.length ≤ n →
      bucketKeys (taken.foldl
        (fun a p => if a.length < n then mapSet a p.1 p.2 else a) acc) =
        bucketKeys acc ++ taken.map Prod.fst := by
  induction taken with
  | nil => intro acc n _ _ _; simp
  | cons q rest ih =>
    intro acc n hnd hfresh hbudget
    simp only [List.foldl_cons]
    have hlt : acc.length < n := by
      simp only [List.length_cons] at hbudget
      omega
    rw [if_pos hlt]
    have hq : q.1 ∉ bucketKeys acc := hfresh q.1 (by simp)
    have hms : mapSet acc q.1 q.2 = acc ++ [(q.1, q.2)] :=
      mapSet_of_not_mem acc q.1 q.2 hq
    have hrest : bucketKeys (rest.foldl
        (fun a p => if a.length < n then mapSet a p.1 p.2 else a)
        (mapSet acc q.1 q.2)) =
        bucketKeys (mapSet acc q.1 q.2) ++ rest.map Prod.fst := by
      apply ih
      · exact (List.nodup_cons.1 (by simpa using hnd)).2
      · intro k hk
        rw [hms]
        unfold bucketKeys
        rw [List.map_append]
        intro hmem
        rcases List.mem_append.1 hmem with hmem | hmem
        · exact hfresh k (by simp [hk]) hmem
        · have : k = q.1 := by simpa using hmem
          exact (List.nodup_cons.1 (by simpa using hnd)).1 (this ▸ hk)
      · rw [hms]
        simp only [List.length_append, List.length_singleton,
          List.length_cons, List.length_nil] at hbudget ⊢
        omega
    rw [hrest, hms]
    unfold bucketKeys
    simp

theorem mapSet_keys_mono (b : Bucket) (id : NodeId) (c : Contact)
    (k : NodeId) (h : k ∈ bucketKeys b) : k ∈ bucketKeys (mapSet b id c) := by
  by_cases hmem : id ∈ bucketKeys b
  · rwa [mapSet_keys_of_mem b id c hmem]
  · rw [mapSet_of_not_mem b id c hmem]
    unfold bucketKeys at h ⊢
    rw [List.map_append]
    exact List.mem_append_left _ h

theorem foldl_mapSet_keys_mono (taken : List (NodeId × Contact)) :
    ∀ (acc : List (NodeId × Contact)) (n : Nat) (k : NodeId),
      k ∈ bucketKeys acc →
      k ∈ bucketKeys (taken.foldl
        (fun a p => if a.length < n then mapSet a p.1 p.2 else a) acc) := by
  induction taken with
  | nil => intro acc n k h; exact h
  | cons q rest ih =>
    intro acc n k h
    simp only [List.foldl_cons]
    by_cases hlt : acc.length < n
    · rw [if_pos hlt]
      exact ih _ n k (mapSet_keys_mono acc q.1 q.2 k h)
    · rw [if_neg hlt]
      exact ih _ n k h

/-- Keys already gathered survive any further bucket scan. -/
theorem addNearest_keys_mono (key : NodeId) (n : Nat) (excl : Bool)
    (acc : List (NodeId × Contact)) (bucket : Bucket) (k : NodeId)
    (h : k ∈ bucketKeys acc) :
    k ∈ bucketKeys (addNearestFromBucket key n excl acc bucket) :=
  foldl_mapSet_keys_mono _ acc n k h

/-- Keys of the sorted prefix drawn from a bucket. -/
theorem entries_keys_facts (b : Bucket) (key : NodeId) (n : Nat) :
    (bucketGetClosestToKey b key n false).length = min n b.length ∧
    (∀ k ∈ (bucketGetClosestToKey b key n false).map Prod.fst,
      k ∈ bucketKeys b) ∧
    ((bucketKeys b).Nodup →
      ((bucketGetClosestToKey b key n false).map Prod.fst).Nodup) := by
  rw [bucketGetClosestToKey_false]
  set r := fun p q : NodeId × Contact => distLE key p.1 q.1 with hr
  have hperm : (b.insertionSort r).Perm b := List.perm_insertionSort r b
  refine ⟨?_, ?_, ?_⟩
  · rw [List.length_take, List.length_insertionSort]
  · intro k hk
    rcases List.mem_map.1 hk with ⟨p, hp, hpk⟩
    have hp' : p ∈ b.insertionSort r := List.mem_of_mem_take hp
    exact List.mem_map.2 ⟨p, hperm.mem_iff.1 hp', hpk⟩
  · intro hnd
    have hnd' : ((b.insertionSort r).map Prod.fst).Nodup :=
      ((hperm.map Prod.fst).nodup_iff).2 hnd
    rw [List.map_take]
    exact hnd'.sublist (List.take_sublist n _)

/-- Scanning a bucket whose keys are already all gathered leaves the result
keys unchanged. -/
theorem addNearest_absorbed (key : NodeId) (n : Nat)
    (acc : List (NodeId × Contact)) (bucket : Bucket)
    (hsub : ∀ k ∈ bucketKeys bucket, k ∈ bucketKeys acc) :
    bucketKeys (addNearestFromBucket key n false acc bucket) =
      bucketKeys acc := by
  unfold addNearestFromBucket
  apply foldl_mapSet_subset
  intro k hk
  rcases List.mem_map.1 hk with ⟨p, hp, hpk⟩
  have hp' : p ∈ bucketGetClosestToKey bucket key n false :=
    List.mem_of_mem_take hp
  exact hsub k ((entries_keys_facts bucket key n).2.1 k
    (List.mem_map.2 ⟨p, hp', hpk⟩))

/-- Scanning a bucket disjoint from the gathered keys appends the closest
fresh entries up to the budget `n`. -/
theorem addNearest_fresh (key : NodeId) (n : Nat)
    (acc : List (NodeId × Contact)) (bucket : Bucket)
    (hnda : (bucketKeys acc).Nodup)
    (hndb : (bucketKeys bucket).Nodup)
    (hdisj : ∀ k ∈ bucketKeys bucket, k ∉ bucketKeys acc)
    (hle : acc.length ≤ n) :
    (addNearestFromBucket key n false acc bucket).length =
      min n (acc.length + bucket.length) ∧
    (bucketKeys (addNearestFromBucket key n false acc bucket)).Nodup ∧
    ∃ fresh : List NodeId,
      bucketKeys (addNearestFromBucket key n false acc bucket) =
        bucketKeys acc ++ fresh ∧ (∀ k ∈ fresh, k ∈ bucketKeys bucket) := by
  unfold addNearestFromBucket
  set entries := bucketGetClosestToKey bucket key n false with hent
  set taken := entries.take (n - acc.length) with htaken
  have hfacts := entries_keys_facts bucket key n
  have htkeys_sub : ∀ k ∈ taken.map Prod.fst, k ∈ bucketKeys bucket := by
    intro k hk
    rcases List.mem_map.1 hk with ⟨p, hp, hpk⟩
    exact hfacts.2.1 k (hpk ▸ List.mem_map.2 ⟨p, List.mem_of_mem_take hp, rfl⟩)
  have htnodup : (taken.map Prod.fst).Nodup := by
    have := hfacts.2.2 hndb
    rw [htaken, List.map_take]
    exact this.sublist (List.take_sublist _ _)
  have htlen : taken.length = min (n - acc.length) (min n bucket.length) := by
    rw [htaken, List.length_take, hfacts.1]
  have hbudget : acc.length + taken.length ≤ n := by
    rw [htlen]; omega
  have hkeys := foldl_mapSet_fresh taken acc n htnodup
    (fun k hk hmem => hdisj k (htkeys_sub k hk) hmem) hbudget
  refine ⟨?_, ?_, ?_⟩
  · have : (taken.foldl
        (fun a p => if a.length < n then mapSet a p.1 p.2 else a) acc).length =
        (bucketKeys (taken.foldl
          (fun a p => if a.length < n then mapSet a p.1 p.2 else a) acc)).length :=
      (List.length_map _ _).symm
    rw [this, hkeys, List.length_append]
    have hacclen : (bucketKeys acc).length = acc.length := List.length_map _ _
    have htklen : (taken.map Prod.fst).length = taken.length :=
      List.length_map _ _
    rw [hacclen, htklen, htlen]
    omega
  · rw [hkeys]
    exact List.Nodup.append hnda htnodup
      (fun k hk hmem => hdisj k (htkeys_sub k hmem) hk)
  · exact ⟨taken.map Prod.fst, hkeys, htkeys_sub⟩

/-- Once `n` results are gathered, a scan is a no-op (`splice(0, 0)` takes
nothing). -/
theorem addNearest_full (key : NodeId) (n : Nat)
    (acc : List (NodeId × Contact)) (bucket : Bucket)
    (h : n ≤ acc.length) :
    addNearestFromBucket key n false acc bucket = acc := by
  unfold addNearestFromBucket
  rw [show n - acc.length = 0 by omega]
  rfl

/-- A nodup list contained in a list no longer than it contains it back. -/
theorem mem_of_superset_count (l1 l2 : List NodeId) (h1 : l1.Nodup)
    (hsub : ∀ x ∈ l1, x ∈ l2) (hlen : l2.length ≤ l1.length) :
    ∀ x ∈ l2, x ∈ l1 := by
  have hsp : l1.Subperm l2 :=
    List.subperm_of_subset h1 (fun x hx => hsub x hx)
  have hperm : l1.Perm l2 := hsp.perm_of_length_le hlen
  intro x hx
  exact hperm.mem_iff.2 hx

/-- Folding the bucket scan over fresh, pairwise-distinct indices gathers
`min n (acc + total)` results. -/
theorem foldl_addNearest_fresh (key : NodeId) (n : Nat) (bkt : Nat → Bucket)
    (hnd : ∀ i, (bucketKeys (bkt i)).Nodup)
    (hdisjB : ∀ i j, i ≠ j → ∀ k ∈ bucketKeys (bkt i), k ∉ bucketKeys (bkt j)) :
    ∀ (idxs : List Nat) (acc : List (NodeId × Contact)) (done : List Nat),
      idxs.Nodup →
      (∀ i ∈ idxs, i ∉ done) →
      (∀ k ∈ bucketKeys acc, ∃ i ∈ done, k ∈ bucketKeys (bkt i)) →
      (bucketKeys acc).Nodup →
      acc.length ≤ n →
      (idxs.foldl (fun a i => addNearestFromBucket key n false a (bkt i))
        acc).length =
        min n (acc.length + (idxs.map (fun i => (bkt i).length)).sum) ∧
      (∀ k ∈ bucketKeys (idxs.foldl
          (fun a i => addNearestFromBucket key n false a (bkt i)) acc),
        ∃ i ∈ done ++ idxs, k ∈ bucketKeys (bkt i)) ∧
      (bucketKeys (idxs.foldl
        (fun a i => addNearestFromBucket key n false a (bkt i)) acc)).Nodup ∧
      (∀ k ∈ bucketKeys acc, k ∈ bucketKeys (idxs.foldl
        (fun a i => addNearestFromBucket key n false a (bkt i)) acc)) := by
  intro idxs
  induction idxs with
  | nil =>
    intro acc done _ _ hprov hnda hle
    refine ⟨by simpa using (Nat.min_eq_right hle).symm, ?_, hnda, fun k hk => hk⟩
    intro k hk
    rcases hprov k hk with ⟨i, hi, hki⟩
    exact ⟨i, by simpa using hi, hki⟩
  | cons i rest ih =>
    intro acc done hndidx hfreshidx hprov hnda hle
    have hdisj : ∀ k ∈ bucketKeys (bkt i), k ∉ bucketKeys acc := by
      intro k hk hmem
      rcases hprov k hmem with ⟨j, hj, hkj⟩
      have hij : i ≠ j := fun hcontra =>
        hfreshidx i (List.mem_cons_self i rest) (hcontra ▸ hj)
      exact hdisjB i j hij k hk hkj
    have hadd := addNearest_fresh key n acc (bkt i) hnda (hnd i) hdisj hle
    rcases hadd.2.2 with ⟨fresh, hkeys, hfresh⟩
    simp only [List.foldl_cons]
    have hprov' : ∀ k ∈ bucketKeys (addNearestFromBucket key n false acc (bkt i)),
        ∃ j ∈ done ++ [i], k ∈ bucketKeys (bkt j) := by
      intro k hk
      rw [hkeys] at hk
      rcases List.mem_append.1 hk with hk | hk
      · rcases hprov k hk with ⟨j, hj, hkj⟩
        exact ⟨j, List.mem_append_left _ hj, hkj⟩
      · exact ⟨i, List.mem_append_right _ (by simp), hfresh k hk⟩
    have hfreshidx' : ∀ j ∈ rest, j ∉ done ++ [i] := by
      intro j hj hmem
      rcases List.mem_append.1 hmem with hmem | hmem
      · exact hfreshidx j (List.mem_cons_of_mem i hj) hmem
      · rcases List.mem_singleton.1 hmem with rfl
        exact (List.nodup_cons.1 hndidx).1 hj
    have hle' : (addNearestFromBucket key n false acc (bkt i)).length ≤ n := by
      rw [hadd.1]; omega
    have hrec := ih (addNearestFromBucket key n false acc (bkt i))
      (done ++ [i]) (List.nodup_cons.1 hndidx).2 hfreshidx' hprov' hadd.2.1 hle'
    refine ⟨?_, ?_, hrec.2.2.1, ?_⟩
    · rw [hrec.1, hadd.1]
      simp only [List.map_cons, List.sum_cons]
      omega
    · intro k hk
      rcases hrec.2.1 k hk with ⟨j, hj, hkj⟩
      refine ⟨j, ?_, hkj⟩
      rcases List.mem_append.1 hj with hj | hj
      · rcases List.mem_append.1 hj with hj | hj
        · exact List.mem_append_left _ hj
        · rcases List.mem_singleton.1 hj with rfl
          exact List.mem_append_right _ (List.mem_cons_self _ _)
      · exact List.mem_append_right _ (List.mem_cons_of_mem _ hj)
    · intro k hk
      refine hrec.2.2.2 k ?_
      rw [hkeys]
      exact List.mem_append_left _ hk

/-- `Router#size` as a sum over bucket positions. -/
theorem map_length_getD_sum (l : List Bucket) :
    (l.map List.length).sum =
      ((List.range l.length).map (fun i => (l.getD i []).length)).sum := by
  induction l with
  | nil => rfl
  | cons a t ih =>
    rw [List.length_cons, List.range_succ_eq_map]
    simp only [List.map_cons, List.map_map, List.sum_cons]
    congr 1

theorem routerSize_split (r : Router) (bi : Nat)
    (hlen : r.buckets.length = B) (hbi : bi < B) :
    routerSize r =
      (r.buckets.getD bi []).length +
      (((List.range bi).map (fun i => (r.buckets.getD i []).length)).sum +
       ((List.range' (bi + 1) (B - bi - 1)).map
         (fun i => (r.buckets.getD i []).length)).sum) := by
  unfold routerSize
  rw [map_length_getD_sum, hlen]
  have hsplit : List.range B =
      List.range bi ++ bi :: List.range' (bi + 1) (B - bi - 1) := by
    rw [List.range_eq_range' B, List.range_eq_range' bi]
    have h1 : List.range' 0 B = List.range' 0 bi ++ List.range' bi (B - bi) := by
      have happ := List.range'_append 0 bi (B - bi) 1
      simp only [Nat.one_mul, Nat.zero_add] at happ
      rw [show B - bi + bi = B by omega] at happ
      exact happ.symm
    have h2 : List.range' bi (B - bi) =
        bi :: List.range' (bi + 1) (B - bi - 1) := by
      have hsucc := List.range'_succ bi (B - bi - 1) 1
      rw [show B - bi - 1 + 1 = B - bi by omega] at hsucc
      exact hsucc
    rw [h1, h2]
  rw [hsplit, List.map_append, List.sum_append, List.map_cons, List.sum_cons]
  omega

set_option maxRecDepth 400000 in
/-- C6 (counterexample): with contact X (fingerprint distance 6 from the
key) in bucket 1 and contact Y (distance 5) in bucket 0, the result of
`getClosestContactsToKey` lists X before Y: the outward bucket walk does not
produce a globally distance-ascending iteration order. -/
theorem C6_get_closest_not_sorted_cex :
    routerGetClosestContactsToKey
      { identity := idZero,
        buckets := ((List.replicate B ([] : Bucket)).set 1
          [(mkKey 2, { address := 10, fingerprint := mkKey 2 })]).set 0
          [(mkKey 1, { address := 11, fingerprint := mkKey 1 })] }
      (mkKey 4) K false =
      [(mkKey 2, { address := 10, fingerprint := mkKey 2 }),
       (mkKey 1, { address := 11, fingerprint := mkKey 1 })] ∧
    compareKeyBuffers (getDistance (mkKey 2) (mkKey 4))
      (getDistance (mkKey 1) (mkKey 4)) = Ordering.gt := by
  constructor
  · decide
  · decide

/-- C6 (amended): for every well-formed routing table (B buckets, no
duplicate fingerprints, every contact stored in its home bucket) and every
key and count, the result of `getClosestContactsToKey(key, n)` has exactly
`min n (total contacts)` entries.  The iteration order, however, is only
sorted within each scanned bucket's contribution: the outward walk
(descending, then ascending) does not yield a globally ascending order (see
the counterexample). -/
theorem C6_router_get_closest_size (r : Router) (key : NodeId) (n : Nat)
    (hlen : r.buckets.length = B)
    (hndB : ∀ i < B, (bucketKeys (r.buckets.getD i [])).Nodup)
    (hplaceB : ∀ i < B, ∀ p ∈ r.buckets.getD i [], routerIndexOf r p.1 = i)
    (hbi : routerIndexOf r key < B) :
    (routerGetClosestContactsToKey r key n false).length =
      min n (routerSize r) := by
  have hout : ∀ i, ¬ i < B → r.buckets.getD i [] = [] := by
    intro i hi
    apply List.getD_eq_default
    omega
  have hnd : ∀ i, (bucketKeys (r.buckets.getD i [])).Nodup := by
    intro i
    by_cases hi : i < B
    · exact hndB i hi
    · rw [hout i hi]
      exact List.nodup_nil
  have hplace : ∀ i, ∀ p ∈ r.buckets.getD i [], routerIndexOf r p.1 = i := by
    intro i p hp
    by_cases hi : i < B
    · exact hplaceB i hi p hp
    · rw [hout i hi] at hp
      cases hp
  have hdisjB : ∀ i j, i ≠ j →
      ∀ k ∈ bucketKeys (r.buckets.getD i []),
        k ∉ bucketKeys (r.buckets.getD j []) := by
    intro i j hij k hki hkj
    rcases List.mem_map.1 hki with ⟨p, hp, hpk⟩
    rcases List.mem_map.1 hkj with ⟨q, hq, hqk⟩
    have h1 := hplace i p hp
    have h2 := hplace j q hq
    rw [hpk] at h1
    rw [hqk] at h2
    exact hij (h1.symm.trans h2)
  set bi := routerIndexOf r key with hbidef
  set step : List (NodeId × Contact) → Nat → List (NodeId × Contact) :=
    fun a i => addNearestFromBucket key n false a (r.buckets.getD i [])
    with hstep
  set acc1 : List (NodeId × Contact) :=
    addNearestFromBucket key n false [] (r.buckets.getD bi []) with hacc1def
  -- unfold the walk into: initial scan, re-scan of bi, descending tail,
  -- re-scan of bi, ascending tail
  have hdesc : (List.range (bi + 1)).reverse = bi :: (List.range bi).reverse := by
    rw [List.range_succ]
    simp
  have hasc : List.range' bi (B - bi) =
      bi :: List.range' (bi + 1) (B - bi - 1) := by
    have hsucc := List.range'_succ bi (B - bi - 1) 1
    rw [show B - bi - 1 + 1 = B - bi by omega] at hsucc
    exact hsucc
  have hwalk : routerGetClosestContactsToKey r key n false =
      (List.range' (bi + 1) (B - bi - 1)).foldl step
        (step (((List.range bi).reverse).foldl step (step acc1 bi)) bi) := by
    have hwalk0 : routerGetClosestContactsToKey r key n false =
        (List.range' bi (B - bi)).foldl step
          (((List.range (bi + 1)).reverse).foldl step acc1) := rfl
    rw [hwalk0, hdesc, hasc, List.foldl_cons, List.foldl_cons]
  -- facts about the initial scan
  have hinit := addNearest_fresh key n [] (r.buckets.getD bi [])
    List.nodup_nil (hnd bi) (fun k _ hmem => by cases hmem) (by simp)
  rcases hinit.2.2 with ⟨f1, hk1, hf1⟩
  have hk1' : bucketKeys acc1 = f1 := by
    rw [hacc1def, hk1]
    rfl
  have hksub1 : ∀ k ∈ bucketKeys acc1, k ∈ bucketKeys (r.buckets.getD bi []) := by
    intro k hk
    exact hf1 k (hk1' ▸ hk)
  have hlen1 : acc1.length = min n (r.buckets.getD bi []).length := by
    rw [hacc1def, hinit.1]
    simp
  have hnd1 : (bucketKeys acc1).Nodup := hinit.2.1
  -- re-scanning bucket bi leaves any accumulator that contains acc1 as is
  have hrescan : ∀ acc : List (NodeId × Contact), (bucketKeys acc).Nodup →
      (∀ k ∈ bucketKeys acc1, k ∈ bucketKeys acc) →
      bucketKeys (step acc bi) = bucketKeys acc ∧
      (step acc bi).length = acc.length := by
    intro acc hndacc hsup
    by_cases hfull : n ≤ acc.length
    · constructor
      · show bucketKeys (addNearestFromBucket key n false acc
          (r.buckets.getD bi [])) = bucketKeys acc
        rw [addNearest_full key n acc _ hfull]
      · show (addNearestFromBucket key n false acc
          (r.buckets.getD bi [])).length = acc.length
        rw [addNearest_full key n acc _ hfull]
    · have hlt : acc.length < n := by omega
      have hlt1 : acc1.length < n := by
        have : acc1.length ≤ acc.length := by
          have h1 : (bucketKeys acc1).length ≤ (bucketKeys acc).length :=
            (List.subperm_of_subset hnd1 (fun k hk => hsup k hk)).length_le
          simpa [bucketKeys] using h1
        omega
      have heq1 : acc1.length = (r.buckets.getD bi []).length := by
        rw [hlen1] at hlt1 ⊢
        omega
      have hbsub : ∀ k ∈ bucketKeys (r.buckets.getD bi []),
          k ∈ bucketKeys acc1 := by
        apply mem_of_superset_count _ _ hnd1 hksub1
        have e1 : (bucketKeys acc1).length = acc1.length := List.length_map _ _
        have e2 : (bucketKeys (r.buckets.getD bi [])).length =
            (r.buckets.getD bi []).length := List.length_map _ _
        omega
      have habs : bucketKeys (step acc bi) = bucketKeys acc := by
        show bucketKeys (addNearestFromBucket key n false acc
          (r.buckets.getD bi [])) = bucketKeys acc
        exact addNearest_absorbed key n acc _
          (fun k hk => hsup k (hbsub k hk))
      refine ⟨habs, ?_⟩
      have e1 : (step acc bi).length = (bucketKeys (step acc bi)).length :=
        (List.length_map _ _).symm
      have e2 : acc.length = (bucketKeys acc).length :=
        (List.length_map _ _).symm
      rw [e1, e2, habs]
  -- first re-scan
  have hstep1 := hrescan acc1 hnd1 (fun k hk => hk)
  -- descending tail
  have hdfold := foldl_addNearest_fresh key n (fun i => r.buckets.getD i [])
    hnd hdisjB ((List.range bi).reverse) (step acc1 bi) [bi]
    (by simpa using List.nodup_range bi)
    (by
      intro i hi hmem
      have hib : i < bi := List.mem_range.1 (List.mem_reverse.1 hi)
      rcases List.mem_singleton.1 hmem with rfl
      omega)
    (by
      intro k hk
      rw [hstep1.1] at hk
      exact ⟨bi, by simp, hksub1 k hk⟩)
    (by rw [hstep1.1]; exact hnd1)
    (by
      rw [hstep1.2, hlen1]
      omega)
  set acc3 : List (NodeId × Contact) :=
    ((List.range bi).reverse).foldl step (step acc1 bi) with hacc3def
  have hlen3 : acc3.length =
      min n (acc1.length +
        (((List.range bi)).map (fun i => (r.buckets.getD i []).length)).sum) := by
    rw [hacc3def, hdfold.1, hstep1.2]
    congr 1
    rw [List.map_reverse, List.sum_reverse]
  have hnd3 : (bucketKeys acc3).Nodup := hdfold.2.2.1
  have hsup3 : ∀ k ∈ bucketKeys acc1, k ∈ bucketKeys acc3 := by
    intro k hk
    rw [hacc3def]
    exact hdfold.2.2.2 k (by rw [hstep1.1]; exact hk)
  -- second re-scan
  have hstep2 := hrescan acc3 hnd3 hsup3
  -- ascending tail
  have hafold := foldl_addNearest_fresh key n (fun i => r.buckets.getD i [])
    hnd hdisjB (List.range' (bi + 1) (B - bi - 1)) (step acc3 bi)
    ([bi] ++ (List.range bi).reverse)
    (List.nodup_range' ..)
    (by
      intro i hi hmem
      have hgt : bi + 1 ≤ i := (List.mem_range'_1.1 hi).1
      rcases List.mem_append.1 hmem with hmem | hmem
      · rcases List.mem_singleton.1 hmem with rfl
        omega
      · have : i < bi := List.mem_range.1 (List.mem_reverse.1 hmem)
        omega)
    (by
      intro k hk
      rw [hstep2.1] at hk
      exact hdfold.2.1 k hk)
    (by rw [hstep2.1]; exact hnd3)
    (by rw [hstep2.2, hlen3]; omega)
  -- assemble
  rw [hwalk]
  have hfinal : ((List.range' (bi + 1) (B - bi - 1)).foldl step
      (step acc3 bi)).length =
      min n ((step acc3 bi).length +
        ((List.range' (bi + 1) (B - bi - 1)).map
          (fun i => (r.buckets.getD i []).length)).sum) := hafold.1
  rw [hfinal, hstep2.2, hlen3, hlen1, routerSize_split r bi hlen hbi]
  omega

set_option maxRecDepth 400000 in
/-- Witness for C6 at a concrete router. -/
theorem C6_router_get_closest_size_witness :
    (routerFull.buckets.length = B ∧ routerIndexOf routerFull (mkKey 60) < B) ∧
    (routerGetClosestContactsToKey routerFull (mkKey 60) 3 false).length =
      min 3 (routerSize routerFull) :=
  ⟨⟨by decide, by decide⟩,
   C6_router_get_closest_size routerFull (mkKey 60) 3 (by decide)
     (by decide) (by decide) (by decide)⟩

/-! ## C10 — random key in a bucket's distance range -/

theorem natLeOr (x y : Nat) : x ≤ x ||| y :=
  Nat.le_of_testBit (fun i h => by rw [Nat.testBit_or]; simp [h])

theorem getD_set_self (l : List Nat) (i v : Nat) (h : i < l.length) :
    (l.set i v).getD i 0 = v := by
  rw [List.getD_eq_getElem _ _ (by simpa using h)]
  simp

theorem getD_set_ne (l : List Nat) (i j v : Nat) (h : i ≠ j) :
    (l.set i v).getD j 0 = l.getD j 0 := by
  by_cases hj : j < l.length
  · rw [List.getD_eq_getElem _ _ (by simpa using hj),
      List.getD_eq_getElem _ _ hj]
    exact List.getElem_set_of_ne h v (by simpa using hj)
  · rw [List.getD_eq_default, List.getD_eq_default] <;> simp_all

theorem getD_zipWith_xor (l1 l2 : List Nat) (i : Nat)
    (h1 : i < l1.length) (h2 : i < l2.length) :
    (List.zipWith Nat.xor l1 l2).getD i 0 = (l1.getD i 0) ^^^ (l2.getD i 0) := by
  rw [List.getD_eq_getElem _ _ (by simp; omega),
    List.getD_eq_getElem _ _ h1, List.getD_eq_getElem _ _ h2]
  exact List.getElem_zipWith ..

/-- A fold of `set`s at positions different from `j` leaves index `j`
alone. -/
theorem foldl_set_getD_ne (g h : Nat → Nat) (ks : List Nat) (j : Nat)
    (hne : ∀ k ∈ ks, g k ≠ j) :
    ∀ l : List Nat,
      (ks.foldl (fun acc k => acc.set (g k) (h k)) l).getD j 0 = l.getD j 0 := by
  induction ks with
  | nil => intro l; rfl
  | cons k rest ih =>
    intro l
    simp only [List.foldl_cons]
    rw [ih (fun q hq => hne q (List.mem_cons_of_mem k hq))]
    exact getD_set_ne l (g k) j (h k) (hne k (List.mem_cons_self k rest))

theorem foldl_set_length (g h : Nat → Nat) (ks : List Nat) :
    ∀ l : List Nat,
      (ks.foldl (fun acc k => acc.set (g k) (h k)) l).length = l.length := by
  induction ks with
  | nil => intro l; rfl
  | cons k rest ih =>
    intro l
    simp only [List.foldl_cons]
    rw [ih]
    exact List.length_set ..

/-- The OR-accumulating fold of the second loop keeps the byte at `pos` in
`[2^r, 2^(r+1))` and the length fixed, provided every OR'd value is below
`2^r`. -/
theorem foldl_or_set_bound (t : Nat → Nat) (r : Nat) (ks : List Nat)
    (hts : ∀ k ∈ ks, t k < 2 ^ r) :
    ∀ (l : List Nat) (pos : Nat), pos < l.length →
      2 ^ r ≤ l.getD pos 0 → l.getD pos 0 < 2 ^ (r + 1) →
      2 ^ r ≤ (ks.foldl
          (fun b k => b.set pos ((b.getD pos 0) ||| t k)) l).getD pos 0 ∧
      (ks.foldl
        (fun b k => b.set pos ((b.getD pos 0) ||| t k)) l).getD pos 0 <
        2 ^ (r + 1) ∧
      (ks.foldl
        (fun b k => b.set pos ((b.getD pos 0) ||| t k)) l).length = l.length ∧
      (∀ j, j ≠ pos → (ks.foldl
        (fun b k => b.set pos ((b.getD pos 0) ||| t k)) l).getD j 0 =
        l.getD j 0) := by
  induction ks with
  | nil => intro l pos _ hlo hhi; exact ⟨hlo, hhi, rfl, fun _ _ => rfl⟩
  | cons k rest ih =>
    intro l pos hpos hlo hhi
    simp only [List.foldl_cons]
    have hset := getD_set_self l pos ((l.getD pos 0) ||| t k) hpos
    have hlo' : 2 ^ r ≤ (l.set pos ((l.getD pos 0) ||| t k)).getD pos 0 := by
      rw [hset]
      exact le_trans hlo (natLeOr _ _)
    have hhi' : (l.set pos ((l.getD pos 0) ||| t k)).getD pos 0 < 2 ^ (r + 1) := by
      rw [hset]
      apply Nat.or_lt_two_pow hhi
      calc t k < 2 ^ r := hts k (List.mem_cons_self k rest)
        _ ≤ 2 ^ (r + 1) := Nat.pow_le_pow_right (by omega) (by omega)
    have hrec := ih (fun q hq => hts q (List.mem_cons_of_mem k hq))
      (l.set pos ((l.getD pos 0) ||| t k)) pos (by simpa using hpos) hlo' hhi'
    refine ⟨hrec.1, hrec.2.1, ?_, ?_⟩
    · rw [hrec.2.2.1, List.length_set]
    · intro j hj
      rw [hrec.2.2.2 j hj, getD_set_ne _ _ _ _ (fun hc => hj hc.symm)]

set_option maxRecDepth 40000 in
/-- The bit scan finds the most significant set bit of a byte. -/
theorem byteScanCount_msb :
    ∀ v < 256, ∀ r < 8, 2 ^ r ≤ v → v < 2 ^ (r + 1) →
      byteScanCount v = some (8 - r) := by
  decide

/-- The byte loop on leading zero bytes followed by a byte in
`[2^r, 2^(r+1))`. -/
theorem bucketIndexLoop_shape (r : Nat) (hr : r < 8) (v : Nat)
    (hlo : 2 ^ r ≤ v) (hhi : v < 2 ^ (r + 1)) :
    ∀ (m acc : Nat) (rest : List Nat),
      bucketIndexLoop (List.replicate m 0 ++ v :: rest) acc =
        acc - 8 * m - (8 - r) := by
  have hvne : v ≠ 0 := by
    have : 1 ≤ 2 ^ r := Nat.one_le_two_pow
    omega
  have hv256 : v < 256 := by
    calc v < 2 ^ (r + 1) := hhi
      _ ≤ 2 ^ 8 := Nat.pow_le_pow_right (by omega) (by omega)
      _ = 256 := by norm_num
  have hscan := byteScanCount_msb v hv256 r hr hlo hhi
  intro m
  induction m with
  | zero =>
    intro acc rest
    show bucketIndexLoop (v :: rest) acc = acc - 8 * 0 - (8 - r)
    unfold bucketIndexLoop
    rw [if_neg hvne, hscan]
    show acc - (8 - r) = acc - 8 * 0 - (8 - r)
    omega
  | succ p ih =>
    intro acc rest
    rw [List.replicate_succ, List.cons_append]
    unfold bucketIndexLoop
    rw [if_pos rfl, ih (acc - 8) rest]
    omega

/-- C10 (counterexample): with reference key ending in byte `0x02` and
bucket index 0 there are no random choices at all, the source overwrites the
whole final byte with `0x01`, and the XOR distance to the reference is
`0x03`, whose highest set bit is at position 1, not 0: the returned buffer
does not lie in bucket 0's distance range. -/
theorem C10_random_bucket_range_cex :
    getRandomBufferInBucketRange (mkKey 2) 0 (fun _ => 0) (fun _ => false) =
      mkKey 1 ∧
    getBucketIndex (mkKey 2)
      (getRandomBufferInBucketRange (mkKey 2) 0 (fun _ => 0) (fun _ => false)) =
      1 := by
  constructor
  · decide
  · decide

/-- C10 (amended): `getRandomBufferInBucketRange(referenceKey, i)` yields a
buffer whose XOR distance to the reference key has its highest set bit at
position `i` — so `getBucketIndex(referenceKey, result) = i` for every
outcome of the random choices — provided the byte of the reference key
containing bit `i` has no set bit at position `i % 8` or above (the source
overwrites that whole byte, so reference bits there leak into the
distance). -/
theorem C10_random_bucket_range (ref : NodeId) (i : Nat)
    (randByte : Nat → Nat) (randBit : Nat → Bool)
    (hlen : ref.length = 20) (hi : i < B)
    (hbyte : ref.getD (K - i / 8 - 1) 0 < 2 ^ (i % 8)) :
    getBucketIndex ref (getRandomBufferInBucketRange ref i randByte randBit) =
      i := by
  have hiB : i < 160 := hi
  set byte := i / 8 with hbytedef
  set r := i % 8 with hrdef
  set pos := K - byte - 1 with hposdef
  have hbyte19 : byte ≤ 19 := by omega
  have hposval : pos = 19 - byte := by
    rw [hposdef]
    show K - byte - 1 = 19 - byte
    have : K = 20 := rfl
    omega
  have hpos20 : pos < 20 := by omega
  have hr8 : r < 8 := Nat.mod_lt i (by omega)
  -- the three stages of the construction
  set base0 : NodeId := ref.set pos (1 <<< r) with hbase0
  set base1 : NodeId := (List.range byte).foldl
    (fun b k => b.set (K - 1 - k) (randByte (K - 1 - k) % 256)) base0
    with hbase1
  set t : Nat → Nat := fun k =>
    if randBit (i - 1 - k) then 1 <<< ((i - 1 - k) - byte * 8) else 0
    with ht
  have hres : getRandomBufferInBucketRange ref i randByte randBit =
      (List.range (i - byte * 8)).foldl
        (fun b k => b.set (K - byte - 1) ((b.getD (K - byte - 1) 0) ||| t k))
        base1 := rfl
  have hlen0 : base0.length = 20 := by
    rw [hbase0, List.length_set, hlen]
  have hlen1 : base1.length = 20 := by
    rw [hbase1, foldl_set_length, hlen0]
  -- loop 1 touches only positions above pos
  have hloop1_ne : ∀ k ∈ List.range byte, K - 1 - k ≠ pos := by
    intro k hk
    have : k < byte := List.mem_range.1 hk
    show K - 1 - k ≠ pos
    have hK : K = 20 := rfl
    omega
  have hbase1_pos : base1.getD pos 0 = 2 ^ r := by
    rw [hbase1, foldl_set_getD_ne _ _ _ _ hloop1_ne, hbase0,
      getD_set_self ref pos _ (by omega)]
    simp [Nat.shiftLeft_eq]
  -- loop 2 bounds
  have hts : ∀ k ∈ List.range (i - byte * 8), t k < 2 ^ r := by
    intro k hk
    have hkr : k < i - byte * 8 := List.mem_range.1 hk
    have hrval : i - byte * 8 = r := by omega
    have hsh : (i - 1 - k) - byte * 8 < r := by omega
    have hpow : (1 : Nat) <<< ((i - 1 - k) - byte * 8) < 2 ^ r := by
      calc (1 : Nat) <<< ((i - 1 - k) - byte * 8) =
            2 ^ ((i - 1 - k) - byte * 8) := by
            simp [Nat.shiftLeft_eq]
        _ < 2 ^ r := Nat.pow_lt_pow_right (by omega) hsh
    simp only [ht]
    cases hb : randBit (i - 1 - k) with
    | false => simp [hb]
    | true => simpa [hb] using hpow
  have hloop2 := foldl_or_set_bound t r (List.range (i - byte * 8)) hts base1
    pos (by omega) (by rw [hbase1_pos]) (by
      rw [hbase1_pos]
      exact Nat.pow_lt_pow_right (by omega) (by omega))
  set result : NodeId := (List.range (i - byte * 8)).foldl
    (fun b k => b.set (K - byte - 1) ((b.getD (K - byte - 1) 0) ||| t k)) base1
    with hresult
  have hresult_pos_lo : 2 ^ r ≤ result.getD pos 0 := hloop2.1
  have hresult_pos_hi : result.getD pos 0 < 2 ^ (r + 1) := hloop2.2.1
  have hresult_len : result.length = 20 := by
    rw [hresult, hloop2.2.2.1, hlen1]
  have hresult_ne : ∀ j, j ≠ pos → result.getD j 0 = base1.getD j 0 :=
    hloop2.2.2.2
  -- distance bytes
  set D : NodeId := getDistance ref result with hD
  have hDlen : D.length = 20 := by
    rw [hD]
    unfold getDistance
    rw [List.length_zipWith, hlen, hresult_len]
    omega
  have hD_at : ∀ j, j < 20 → D.getD j 0 = (ref.getD j 0) ^^^ (result.getD j 0) := by
    intro j hj
    rw [hD]
    exact getD_zipWith_xor ref result j (by omega) (by omega)
  have hD_low : ∀ j, j < pos → D.getD j 0 = 0 := by
    intro j hj
    rw [hD_at j (by omega), hresult_ne j (by omega), hbase1,
      foldl_set_getD_ne _ _ _ _ ?hne, hbase0, getD_set_ne _ _ _ _ (by omega)]
    · simp
    case hne =>
      intro k hk
      have : k < byte := List.mem_range.1 hk
      have hK : K = 20 := rfl
      omega
  have hD_pos_lo : 2 ^ r ≤ D.getD pos 0 := by
    rw [hD_at pos (by omega)]
    by_contra hcon
    push_neg at hcon
    have hback : (ref.getD pos 0) ^^^ ((ref.getD pos 0) ^^^ (result.getD pos 0)) =
        result.getD pos 0 := by
      rw [← Nat.xor_assoc]
      simp
    have : result.getD pos 0 < 2 ^ r := by
      rw [← hback]
      exact Nat.xor_lt_two_pow hbyte hcon
    omega
  have hD_pos_hi : D.getD pos 0 < 2 ^ (r + 1) := by
    rw [hD_at pos (by omega)]
    apply Nat.xor_lt_two_pow _ hresult_pos_hi
    calc ref.getD pos 0 < 2 ^ r := hbyte
      _ ≤ 2 ^ (r + 1) := Nat.pow_le_pow_right (by omega) (by omega)
  -- assemble the distance list shape and run the byte loop
  have hDsplit : D = List.replicate pos 0 ++ D.getD pos 0 :: D.drop (pos + 1) := by
    have htd := List.take_append_drop pos D
    have hdrop : D.drop pos = D.getD pos 0 :: D.drop (pos + 1) := by
      rw [List.getD_eq_getElem _ _ (by omega)]
      exact List.drop_eq_getElem_cons (by omega)
    have htake : D.take pos = List.replicate pos 0 := by
      apply List.eq_replicate_iff.2
      refine ⟨by rw [List.length_take]; omega, ?_⟩
      intro x hx
      rcases List.mem_iff_getElem.1 hx with ⟨j, hjlt, hjx⟩
      have hjpos : j < pos := by
        have := List.length_take pos D
        omega
      rw [List.getElem_take] at hjx
      rw [← hjx, ← List.getD_eq_getElem _ _ (by omega)]
      exact hD_low j hjpos
    rw [← htake, ← hdrop]
    exact htd.symm
  show bucketIndexLoop D B = i
  rw [hDsplit, bucketIndexLoop_shape r hr8 (D.getD pos 0) hD_pos_lo hD_pos_hi
    pos B (D.drop (pos + 1))]
  show B - 8 * pos - (8 - r) = i
  have hB : B = 160 := rfl
  omega

/-- Witness for C10 at a concrete key, index and random outcome. -/
theorem C10_random_bucket_range_witness :
    ((idZero : NodeId).length = 20 ∧ 13 < B ∧
      (idZero : NodeId).getD (K - 13 / 8 - 1) 0 < 2 ^ (13 % 8)) ∧
    getBucketIndex idZero
      (getRandomBufferInBucketRange idZero 13 (fun j => 37 + j)
        (fun j => j % 2 == 0)) = 13 :=
  ⟨⟨by decide, by decide, by decide⟩,
   C10_random_bucket_range idZero 13 (fun j => 37 + j) (fun j => j % 2 == 0)
     (by decide) (by decide) (by decide)⟩

/-! ## C5 — invalid keys across the three handlers -/

/-- A sender contact for the handler results. -/
def senderW : Contact := { address := 1, fingerprint := mkKey 3 }

/-- A non-hex wire key. -/
def badKeyChars : List Char := ['z', 'z']

set_option maxRecDepth 400000 in
/-- C5 (counterexample): `STORE` never validates its key as 160-bit hex; an
invalid key is decoded to a short buffer that cannot equal `hash160(blob)`,
so the handler fails with `Key does not match value hash`, not with the
claimed `InvalidKey` error. -/
theorem C5_store_invalid_key_cex :
    keyStringIsValid badKeyChars = false ∧
    (protocolStore routerFull badKeyChars (mkKey 7) senderW).2.1 =
      HandlerResult.failure keyHashMismatchMsg ∧
    (protocolStore routerFull badKeyChars (mkKey 7) senderW).2.1 ≠
      HandlerResult.failure invalidKeyMsg := by
  refine ⟨by decide, by decide, by decide⟩

/-- C5 (amended): for every key that does not decode to exactly 20 bytes,
`FIND_NODE` and `FIND_VALUE` fail with `InvalidKey` and emit no storage
event and no result; `STORE` also fails without emitting `storage_put`, but
with `KeyHashMismatch` (its key check is the content-address comparison, and
a short buffer never equals the 20-byte `hash160(blob)`). -/
theorem C5_invalid_key_handlers (r : Router) (key : List Char)
    (sender : Contact) (blobHash : List Nat) (storageErr : Bool)
    (item : Option Item)
    (hinv : keyStringIsValid key = false) (hhash : blobHash.length = 20) :
    (protocolFindNode r key sender).2.1 = HandlerResult.failure invalidKeyMsg ∧
    (protocolFindNode r key sender).2.2 = [] ∧
    (protocolFindValue r key sender storageErr item).2.1 =
      HandlerResult.failure invalidKeyMsg ∧
    (protocolFindValue r key sender storageErr item).2.2 = [] ∧
    (protocolStore r key blobHash sender).2.1 =
      HandlerResult.failure keyHashMismatchMsg ∧
    (protocolStore r key blobHash sender).2.2 = [] := by
  have hneq : hexDecode key ≠ blobHash := by
    intro hcontra
    have hlen : (hexDecode key).length = 20 := by rw [hcontra, hhash]
    have : keyStringIsValid key = true := by
      unfold keyStringIsValid
      simp [hlen]
    rw [this] at hinv
    cases hinv
  have hinv' : ¬ (keyStringIsValid key = true) := by simp [hinv]
  refine ⟨?_, ?_, ?_, ?_, ?_, ?_⟩
  · simp [protocolFindNode, hinv', invalidKeyMsg]
  · simp [protocolFindNode, hinv']
  · simp [protocolFindValue, hinv', invalidKeyMsg]
  · simp [protocolFindValue, hinv']
  · simp [protocolStore, hneq, keyHashMismatchMsg]
  · simp [protocolStore, hneq]

set_option maxRecDepth 400000 in
/-- Witness for C5 at a concrete invalid key. -/
theorem C5_invalid_key_handlers_witness :
    (keyStringIsValid badKeyChars = false ∧ (mkKey 7 : List Nat).length = 20) ∧
    (protocolFindNode routerFull badKeyChars senderW).2.1 =
      HandlerResult.failure invalidKeyMsg :=
  ⟨⟨by decide, by decide⟩,
   (C5_invalid_key_handlers routerFull badKeyChars senderW (mkKey 7)
     false none (by decide) (by decide)).1⟩

/-! ## C4 — FIND_VALUE fallback semantics -/

/-- A valid 40-hex-char wire key. -/
def validKeyChars : List Char := List.replicate 40 'a'

set_option maxRecDepth 400000 in
/-- C4 (counterexample): when storage reports no error and no item, the
handler responds `(null, undefined)` — it does not fall back to FIND_NODE
semantics, although the routing table holds contacts it would return. -/
theorem C4_missing_item_no_fallback_cex :
    (protocolFindValue routerFull validKeyChars senderW false none).2.1 =
      HandlerResult.item none ∧
    (protocolFindValue routerFull validKeyChars senderW false none).2.1 ≠
      (protocolFindNode routerFull validKeyChars senderW).2.1 ∧
    (protocolFindNode routerFull validKeyChars senderW).2.1 ≠
      HandlerResult.item none := by
  refine ⟨by decide, by decide, by decide⟩

/-- C4 (amended): for every valid key, `FIND_VALUE` emits
`storage_get(key)`; if storage reports an error it falls through to
`FIND_NODE` semantics (responding with the closest contacts); if storage
reports no error it responds with the storage item as-is — including the
no-item case, which is answered with the empty item rather than the
FIND_NODE fallback. -/
theorem C4_find_value_fallback (r : Router) (key : List Char)
    (sender : Contact) (item : Option Item)
    (hvalid : keyStringIsValid key = true) :
    (StorageEvent.storage_get key ∈
      (protocolFindValue r key sender true item).2.2) ∧
    (protocolFindValue r key sender true item).2.1 =
      (protocolFindNode
        (routerAddContactByNodeId r sender.fingerprint sender).1
        key sender).2.1 ∧
    (StorageEvent.storage_get key ∈
      (protocolFindValue r key sender false item).2.2) ∧
    (protocolFindValue r key sender false item).2.1 =
      HandlerResult.item item := by
  refine ⟨?_, ?_, ?_, ?_⟩
  · simp [protocolFindValue, hvalid]
  · simp [protocolFindValue, hvalid]
  · simp [protocolFindValue, hvalid]
  · simp [protocolFindValue, hvalid]

set_option maxRecDepth 400000 in
/-- Witness for C4 at a concrete valid key. -/
theorem C4_find_value_fallback_witness :
    keyStringIsValid validKeyChars = true ∧
    (protocolFindValue routerFull validKeyChars senderW false (some 42)).2.1 =
      HandlerResult.item (some 42) :=
  ⟨by decide,
   (C4_find_value_fallback routerFull validKeyChars senderW (some 42)
     (by decide)).2.2.2⟩

/-! ## C3 — join's refresh range -/

/-- A contact whose fingerprint is at distance `2^158` from `idZero`, so it
lives in bucket 158. -/
def contactHigh : Contact := { address := 7, fingerprint := 64 :: List.replicate 19 0 }

/-- A router whose only occupied bucket is 158. -/
def routerSeed158 : Router :=
  { identity := idZero,
    buckets := (List.replicate B ([] : Bucket)).set 158
      [(contactHigh.fingerprint, contactHigh)] }

set_option maxRecDepth 400000 in
/-- C3: after `join`'s initial lookup, the source calls
`this.refresh(this.router.getClosestBucket() + 1)`.  `getClosestBucket()`
returns the `[index, bucket]` pair, so `+ 1` performs string concatenation
and `slice` coerces the argument to 0: with the lowest occupied bucket at
index 158, the refresh candidate list is all of 0..159 instead of only the
indices strictly greater than 158. -/
theorem C3_join_refresh_all_buckets :
    (routerGetClosestBucket routerSeed158).1 = 158 ∧
    joinRefreshCandidates routerSeed158 = List.range 160 ∧
    0 ∈ joinRefreshCandidates routerSeed158 := by
  refine ⟨by decide, by decide, by decide⟩

/-! ## C1 — lookizes never settle after a head-probe PING failure -/

/-- The node state whose router has the full bucket 5. -/
def stFull : NodeState :=
  { router := routerFull, pings := [], lookups := [], events := [] }

/-- Transport oracle: every FIND RPC discovers the fresh contact
`contactNew` (whose bucket is full), and every PING fails. -/
def ctxHeadFail : LookupCtx :=
  { selfContact := { address := 0, fingerprint := idZero },
    rpc := fun _ => RpcOutcome.nodes [contactNew],
    pingOk := fun _ => false,
    now := 1000000 }

set_option maxRecDepth 1000000 in
/-- C1: a transport failure of the head-probe PING issued by
`_updateContact` for a newly discovered contact rejects the un-guarded
`await this._updateContact(added[i])` inside `iterativeLookup`, so the
lookup promise never settles (first conjunct).  With the head answering its
PING the same lookup resolves (second conjunct), and plain per-RPC
transport errors are indeed swallowed — a lookup whose every RPC fails
resolves with the empty active list (third conjunct). -/
theorem C1_lookup_never_settles_on_head_probe_failure :
    (iterativeFindNode ctxHeadFail stFull (mkKey 60)).2 =
      LookupOutcome.never ∧
    (iterativeFindNode
      { ctxHeadFail with pingOk := fun _ => true } stFull (mkKey 60)).2 ≠
      LookupOutcome.never ∧
    (iterativeFindNode
      { ctxHeadFail with rpc := fun _ => RpcOutcome.rpcError } stFull
      (mkKey 60)).2 = LookupOutcome.resolvedNodes [] := by
  refine ⟨by decide, by decide, by decide⟩

/-! ## C2 — the FIND_VALUE value branch's STORE target -/

/-- A router holding the single contact `cW3`. -/
def cW3 : Contact := { address := 5, fingerprint := mkKey 7 }

def routerSingle : Router :=
  { identity := idZero,
    buckets := (List.replicate B ([] : Bucket)).set 2 [(mkKey 7, cW3)] }

def stSingle : NodeState :=
  { router := routerSingle, pings := [], lookups := [], events := [] }

/-- Transport oracle: every FIND_VALUE RPC returns the value 42. -/
def ctxValue : LookupCtx :=
  { selfContact := { address := 0, fingerprint := idZero },
    rpc := fun _ => RpcOutcome.value 42,
    pingOk := fun _ => true,
    now := 1000000 }

set_option maxRecDepth 400000 in
/-- C2 (counterexample): with a single known contact that itself returns
the value, the lookup resolves with the value but queues its
"closest missing value" STORE to that very contact — `shortlist.active[0]`
includes the contact that returned the value, contradicting the claim that
the STORE goes to an active contact other than the responder. -/
theorem C2_store_target_is_responder_cex :
    (iterativeFindValue ctxValue stSingle (mkKey 9)).2 =
      LookupOutcome.resolvedValue 42 ∧
    (iterativeFindValue ctxValue stSingle (mkKey 9)).1.events =
      [LookupEvent.storeQueued cW3] ∧
    ctxValue.rpc cW3 = RpcOutcome.value 42 := by
  refine ⟨by decide, by decide, by decide⟩

/-- C2 (amended): when a FIND_VALUE wave's contact returns a value, the
lookup marks that contact responded, queues exactly one STORE to the first
entry of `shortlist.active` (the closest active contact — which may be the
responder itself), and resolves with the value; nothing awaits the STORE's
`respond` callback (it is `() => null` in the source), so resolution does
not depend on it. -/
theorem C2_find_value_store_closest_active (ctx : LookupCtx) (st : NodeState)
    (sl : ContactList) (c : Contact) (rest : List Contact) (v : Item)
    (hrpc : ctx.rpc c = RpcOutcome.value v)
    (hmem : c ∈ sl.contacts) :
    ∃ target : Contact,
      (clActive (clResponded (clContacted sl c) c)).head? = some target ∧
      runSelection ctx FindMethod.FIND_VALUE st sl (c :: rest) =
        ({ st with events := st.events ++ [LookupEvent.storeQueued
            { address := target.address, fingerprint := target.fingerprint }] },
         clResponded (clContacted sl c) c,
         some (LookupOutcome.resolvedValue v)) := by
  have hc2 : c ∈ clActive (clResponded (clContacted sl c) c) := by
    unfold clActive clResponded clContacted
    refine List.mem_filter.2 ⟨hmem, ?_⟩
    simp [setAdd_mem]
  obtain ⟨tgt, ts, hact⟩ :
      ∃ tgt ts, clActive (clResponded (clContacted sl c) c) = tgt :: ts := by
    cases hcl : clActive (clResponded (clContacted sl c) c) with
    | nil =>
      rw [hcl] at hc2
      cases hc2
    | cons a l => exact ⟨a, l, rfl⟩
  refine ⟨tgt, by rw [hact]; rfl, ?_⟩
  show runSelection ctx FindMethod.FIND_VALUE st sl (c :: rest) = _
  unfold runSelection
  rw [hrpc]
  simp only [hact]
  rfl

set_option maxRecDepth 400000 in
/-- Witness for C2 at the single-contact lookup state. -/
theorem C2_find_value_store_closest_active_witness :
    (ctxValue.rpc cW3 = RpcOutcome.value 42 ∧
      cW3 ∈ (clInit (mkKey 9) [cW3]).contacts) ∧
    ∃ target : Contact,
      (clActive (clResponded (clContacted (clInit (mkKey 9) [cW3]) cW3)
        cW3)).head? = some target ∧
      runSelection ctxValue FindMethod.FIND_VALUE stSingle
        (clInit (mkKey 9) [cW3]) [cW3] =
        ({ stSingle with events := stSingle.events ++ [LookupEvent.storeQueued
            { address := target.address, fingerprint := target.fingerprint }] },
         clResponded (clContacted (clInit (mkKey 9) [cW3]) cW3) cW3,
         some (LookupOutcome.resolvedValue 42)) :=
  ⟨⟨by decide, by decide⟩,
   C2_find_value_store_closest_active ctxValue stSingle
     (clInit (mkKey 9) [cW3]) cW3 [] 42 (by decide) (by decide)⟩

end Kademlia
